import Mathlib

/-!
vtmdice: the dice-pool engine of `app.go`.

A shallow embedding of the `Game` state machine of `app.go` (dice, pool
evaluation, outcome classification, set-up, roll, rerolls, blood surge), with
the properties proved of it.

Conventions of the embedding.

* Go `int` / `int64` values are `Int`.  The source only compares and copies
  them, with two exceptions: the subtraction in `SetUp`, which acts on raw
  caller input and is wrapped to 64 bits (`wrap64`), and the counters of
  `compute`, which count dice of the pool and are therefore bounded by the
  length of a Go slice, far below `2^62`, so that none of their operations
  wraps.
* A `Dice` interface value is a pointer to a `NormalDice` or a `HungerDice`
  struct; the two constructors of `Dice` are the two dynamic types, each with
  its `Value` and `Type` fields.  No die is shared between two live pools, so
  the pool is a value (`List Dice`).
* `math/rand` is a stream of raw draws (`Rand`); `rand.Intn n` reduces the next
  raw draw modulo `n`, so every outcome in `[0, n)` is covered.
* A Go `error` result is `Option Err` (`none` is `nil`); each `fmt.Errorf` call
  of the source is one constructor of `Err`, with its text given by
  `Err.Error`.
* A run-time panic (index out of range, slice capacity out of range) is
  `Res.crash`.  Exhaustion of the machine's memory below the capacity limit of
  the runtime is outside the embedding.
-/

namespace Vtmdice

/-- Constant `DICE_MAX` (line 12). -/
def DICE_MAX : Int := 10

/-- Type `DiceType` (lines 14-19). -/
inductive DiceType where
  | Normal
  | Hunger
  deriving DecidableEq, Repr

/-- Type `RollResult` (lines 32-39). -/
inductive RollResult where
  | Fail
  | Success
  | CriticalSuccess
  | BestialFail
  deriving DecidableEq, Repr

/-- The random source: a stream of raw draws and the number of draws consumed. -/
structure Rand where
  stream : Nat → Nat
  pos : Nat

/-- Call `rand.Intn(n)`: the next raw draw reduced modulo `n`, and the advanced source. -/
def Rand.Intn (r : Rand) (n : Int) : Int × Rand :=
  (Int.ofNat (r.stream r.pos) % n, { r with pos := r.pos + 1 })

/-- Interface `Dice` (lines 56-61) with its two implementations, the structs
`NormalDice` (lines 63-66) and `HungerDice` (lines 83-86). -/
inductive Dice where
  | NormalDice (Value : Int) (Typ : DiceType)
  | HungerDice (Value : Int) (Typ : DiceType)
  deriving DecidableEq, Repr

/-- Methods `GetValue` (lines 71, 91). -/
def Dice.GetValue : Dice → Int
  | .NormalDice v _ => v
  | .HungerDice v _ => v

/-- Methods `GetType` (lines 72, 92): the `Type` field. -/
def Dice.GetType : Dice → DiceType
  | .NormalDice _ t => t
  | .HungerDice _ t => t

/-- Methods `Roll` (lines 68-70, 88-90): `Value = rand.Intn(DICE_MAX) + 1`. -/
def Dice.Roll (d : Dice) (r : Rand) : Dice × Rand :=
  match d with
  | .NormalDice _ t => (.NormalDice ((r.Intn DICE_MAX).1 + 1) t, (r.Intn DICE_MAX).2)
  | .HungerDice _ t => (.HungerDice ((r.Intn DICE_MAX).1 + 1) t, (r.Intn DICE_MAX).2)

/-- Methods `GetResult`: `NormalDice` (lines 73-81) and `HungerDice` (lines 93-104). -/
def Dice.GetResult : Dice → RollResult
  | .NormalDice v _ =>
    if v = DICE_MAX then .CriticalSuccess
    else if v > 5 ∧ v < DICE_MAX then .Success
    else .Fail
  | .HungerDice v _ =>
    if v = DICE_MAX then .CriticalSuccess
    else if v = 1 then .BestialFail
    else if v > 5 ∧ v < DICE_MAX then .Success
    else .Fail

/-- Struct `Game` (lines 106-116). -/
structure Game where
  dices : List Dice
  difficulty : Int
  hasHungerCrit : Bool
  hasHungerFail : Bool
  usedReroll : Bool
  usedBloodSurge : Bool
  successes : Int
  critSuccesses : Int
  result : String
  deriving DecidableEq, Repr

/-- The zero value `Game{}`. -/
def Game.zero : Game :=
  { dices := [], difficulty := 0, hasHungerCrit := false, hasHungerFail := false,
    usedReroll := false, usedBloodSurge := false, successes := 0, critSuccesses := 0,
    result := "" }

/-- Method `calcSuccess` (lines 195-205). -/
def Game.calcSuccess (game : Game) : String :=
  if game.critSuccesses < 2 then "Success"
  else if game.hasHungerCrit = true then "Messy Critical"
  else "Critical Success"

/-- Method `calcFailure` (lines 207-213). -/
def Game.calcFailure (game : Game) : String :=
  if game.hasHungerFail = true then "Bestial Failure"
  else "Failure"

/-- Method `calcDiceResult` (lines 181-186). -/
def Game.calcDiceResult (game : Game) : String :=
  if game.successes = 0 then game.calcFailure
  else game.calcSuccess

/-- Method `calcAgainstDifficulty` (lines 188-193). -/
def Game.calcAgainstDifficulty (game : Game) : String :=
  if game.successes ≥ game.difficulty then game.calcSuccess
  else game.calcFailure

/-- Method `calcResult` (lines 174-179). -/
def Game.calcResult (game : Game) : String :=
  if game.difficulty = 0 then game.calcDiceResult
  else game.calcAgainstDifficulty

/-- The expression `critSuccesses*2 - critSuccesses&1` of line 170; in Go `&`
binds like `*`, tighter than `-`, so it reads `(c*2) - (c&1)`. -/
def critBonus (c : Int) : Int :=
  c * 2 - Int.land c 1

/-- One iteration of the loop of `compute` (lines 156-168). -/
def computeStep (game : Game) (dice : Dice) : Game :=
  match dice.GetResult with
  | .Success => { game with successes := game.successes + 1 }
  | .CriticalSuccess =>
    let game1 := { game with critSuccesses := game.critSuccesses + 1 }
    if dice.GetType = .Hunger then { game1 with hasHungerCrit := true } else game1
  | .BestialFail => { game with hasHungerFail := true }
  | .Fail => game

/-- Method `compute` (lines 155-172). -/
def Game.compute (game : Game) : Game :=
  let game1 := game.dices.foldl computeStep game
  let game2 := { game1 with successes := game1.successes + critBonus game1.critSuccesses }
  { game2 with result := game2.calcResult }

/-- The errors built by the `fmt.Errorf` calls of the source, one constructor
per call site (two call sites share `"Already rerolled"`). -/
inductive Err where
  | indexOutOfRange (index : Int)
  | indexIsHungerDice (index : Int)
  | incorrectDices (dicesNum : Int)
  | notEnoughDices (dicesNum : Int) (normalDices : Int)
  | alreadyRerolled
  | needToRollFirst
  | alreadyUsedBloodSurge
  | rerollWasUsed
  deriving DecidableEq, Repr

/-- The text of an error (lines 227, 230, 238, 249, 257, 277, 303, 306, 310). -/
def Err.Error : Err → String
  | .indexOutOfRange index => s!"index {index} is out of range"
  | .indexIsHungerDice index => s!"index {index} is hunger dice"
  | .incorrectDices dicesNum => s!"incorrect dices. should be 1 - 3, got {dicesNum}"
  | .notEnoughDices dicesNum normalDices =>
    s!"not enough dices to reroll: wanted {dicesNum}, got {normalDices}"
  | .alreadyRerolled => "Already rerolled"
  | .needToRollFirst => "Need to roll first"
  | .alreadyUsedBloodSurge => "Already used blood surge"
  | .rerollWasUsed => "Can't use blood surge, reroll was used"

/-- The outcome of running a piece of the program: it completes with a value,
or the process dies of a run-time panic. -/
inductive Res (α : Type) where
  | done (a : α)
  | crash
  deriving Repr

/-- Two's-complement wrap of an integer to the range of `int64`. -/
def wrap64 (x : Int) : Int :=
  (x + 2 ^ 63) % 2 ^ 64 - 2 ^ 63

/-- Slice indexing `dices[index]` with an `int64` index: `none` is the
index-out-of-range panic. -/
def indexDice (dices : List Dice) (index : Int) : Option Dice :=
  if index < 0 then none else dices.get? index.toNat

/-- The largest capacity of a `[]Dice` that the Go runtime grants on a 64-bit
platform: `maxAlloc`, 2^48 bytes, over the 16 bytes of an interface value.
Beyond it `make` panics with `makeslice: cap out of range` and `append` with
`growslice: len out of range`. -/
def maxSliceCap : Int := 2 ^ 44

/-- A loop `for i = 0; i < n; i++ { dices = append(dices, d) }` of `SetUp`
(lines 132-137), by the number of iterations left.  `append` panics at the
latest when the new length passes `maxSliceCap`. -/
def appendLoop (d : Dice) : Nat → List Dice → Res (List Dice)
  | 0, dices => .done dices
  | k + 1, dices =>
    if (dices.length : Int) + 1 > maxSliceCap then .crash
    else appendLoop d k (dices ++ [d])

/-- Method `SetUp` (lines 118-138).  `make([]Dice, 0, totalDicesCount)` panics
on a negative capacity and on a capacity above `maxSliceCap`; the two loops
run `max n 0` times. -/
def Game.SetUp (game : Game) (totalDicesCount hungerDicesCount difficulty : Int) : Res Game :=
  if totalDicesCount < 0 ∨ totalDicesCount > maxSliceCap then .crash
  else
    let normalDicesCount := wrap64 (totalDicesCount - hungerDicesCount)
    match appendLoop (.NormalDice 0 .Normal) normalDicesCount.toNat [] with
    | .crash => .crash
    | .done dices1 =>
      match appendLoop (.HungerDice 0 .Hunger) hungerDicesCount.toNat dices1 with
      | .crash => .crash
      | .done dices2 =>
        .done { game with
          difficulty := difficulty, hasHungerCrit := false, hasHungerFail := false,
          usedReroll := false, usedBloodSurge := false, successes := 0, critSuccesses := 0,
          result := "", dices := dices2 }

/-- The loop of `Roll` (lines 149-151): every die of the pool is rolled, in order. -/
def rollAll : List Dice → Rand → List Dice × Rand
  | [], r => ([], r)
  | dice :: rest, r =>
    ((dice.Roll r).1 :: (rollAll rest (dice.Roll r).2).1, (rollAll rest (dice.Roll r).2).2)

/-- Method `Roll` (lines 140-153). -/
def Game.Roll (game : Game) (r : Rand) : Game × Rand :=
  let game1 := { game with
    hasHungerCrit := false, hasHungerFail := false, successes := 0, critSuccesses := 0,
    result := "", usedReroll := false, usedBloodSurge := false }
  (Game.compute { game1 with dices := (rollAll game.dices r).1 }, (rollAll game.dices r).2)

/-- The loop of `CanRerollDices` (lines 225-232) over the indexes still to check. -/
def canRerollDicesLoop (dices : List Dice) : List Int → Res (Option Err)
  | [] => .done none
  | index :: rest =>
    if index > (dices.length : Int) - 1 then .done (some (.indexOutOfRange index))
    else
      match indexDice dices index with
      | none => .crash
      | some dice =>
        if dice.GetType = .Hunger then .done (some (.indexIsHungerDice index))
        else canRerollDicesLoop dices rest

/-- Method `CanRerollDices` (lines 224-234). -/
def Game.CanRerollDices (game : Game) (diceIndexes : List Int) : Res (Option Err) :=
  canRerollDicesLoop game.dices diceIndexes

/-- The counting loop of `CanReroll` (lines 241-246). -/
def countNormal : List Dice → Int → Int
  | [], normalDices => normalDices
  | dice :: rest, normalDices =>
    if dice.GetType = .Normal then countNormal rest (normalDices + 1)
    else countNormal rest normalDices

/-- Method `CanReroll` (lines 236-253). -/
def Game.CanReroll (game : Game) (dicesNum : Int) : Option Err :=
  if dicesNum ≤ 0 ∨ dicesNum > 3 then some (.incorrectDices dicesNum)
  else
    let normalDices := countNormal game.dices 0
    if normalDices < dicesNum then some (.notEnoughDices dicesNum normalDices)
    else none

/-- The loop of `RerollDices` (lines 267-269): `game.dices[index].Roll()` for
each listed index in turn. -/
def rerollDicesLoop : List Dice → List Int → Rand → Res (List Dice × Rand)
  | dices, [], r => .done (dices, r)
  | dices, index :: rest, r =>
    match indexDice dices index with
    | none => .crash
    | some dice => rerollDicesLoop (dices.set index.toNat (dice.Roll r).1) rest (dice.Roll r).2

/-- Method `RerollDices` (lines 255-273): the state, the random source and the
returned error. -/
def Game.RerollDices (game : Game) (diceIndexes : List Int) (r : Rand) :
    Res (Game × Rand × Option Err) :=
  if game.usedReroll = true then .done (game, r, some .alreadyRerolled)
  else
    let game1 := { game with
      hasHungerCrit := false, hasHungerFail := false, successes := 0, critSuccesses := 0,
      result := "", usedReroll := true }
    match rerollDicesLoop game1.dices diceIndexes r with
    | .crash => .crash
    | .done (dices, r1) => .done (Game.compute { game1 with dices := dices }, r1, none)

/-- The loop of `Reroll` (lines 289-295).  `index` runs upward from 0, one die
per iteration, so the loop is followed along the pool: the first argument is
the part of the pool from `index` on, and running off its end is the
index-out-of-range panic of `game.dices[index]`. -/
def rerollLoop : List Dice → Int → Int → Rand → Res (List Dice × Rand)
  | [], normalDices, dicesNum, r =>
    if normalDices < dicesNum then .crash else .done ([], r)
  | dice :: rest, normalDices, dicesNum, r =>
    if normalDices < dicesNum then
      if dice.GetType = .Normal then
        match rerollLoop rest (normalDices + 1) dicesNum (dice.Roll r).2 with
        | .crash => .crash
        | .done (dices, r1) => .done ((dice.Roll r).1 :: dices, r1)
      else
        match rerollLoop rest normalDices dicesNum r with
        | .crash => .crash
        | .done (dices, r1) => .done (dice :: dices, r1)
    else .done (dice :: rest, r)

/-- Method `Reroll` (lines 275-299). -/
def Game.Reroll (game : Game) (dicesNum : Int) (r : Rand) : Res (Game × Rand × Option Err) :=
  if game.usedReroll = true then .done (game, r, some .alreadyRerolled)
  else
    let game1 := { game with
      hasHungerCrit := false, hasHungerFail := false, successes := 0, critSuccesses := 0,
      result := "", usedReroll := true }
    match rerollLoop game1.dices 0 dicesNum r with
    | .crash => .crash
    | .done (dices, r1) => .done (Game.compute { game1 with dices := dices }, r1, none)

/-- Method `CanBloodSurge` (lines 301-314). -/
def Game.CanBloodSurge (game : Game) : Option Err :=
  if game.dices.length = 0 then some .needToRollFirst
  else if game.usedBloodSurge = true then some .alreadyUsedBloodSurge
  else if game.usedReroll = true then some .rerollWasUsed
  else none

/-- Method `BloodSurge` (lines 316-333): two freshly rolled `NormalDice` in
front of a copy of the old pool. -/
def Game.BloodSurge (game : Game) (r : Rand) : Game × Rand :=
  let game1 := { game with
    hasHungerCrit := false, hasHungerFail := false, successes := 0, critSuccesses := 0,
    result := "", usedBloodSurge := true }
  let d0 := (Dice.NormalDice 0 .Normal).Roll r
  let d1 := (Dice.NormalDice 0 .Normal).Roll d0.2
  (Game.compute { game1 with dices := d0.1 :: d1.1 :: game.dices }, d1.2)

/-- Function `rcCheckGame` (lines 335-341). -/
def rcCheckGame (r : Rand) : Res (Game × Rand) :=
  match Game.zero.SetUp 1 1 0 with
  | .crash => .crash
  | .done game => .done (game.Roll r)

/-- The reroll-by-index branch of `main` (lines 384-392): `CanRerollDices`,
and `RerollDices` only when the guard returned `nil`. -/
def guardedRerollDices (game : Game) (diceIndexes : List Int) (r : Rand) :
    Res (Game × Rand × Option Err) :=
  match game.CanRerollDices diceIndexes with
  | .crash => .crash
  | .done (some err) => .done (game, r, some err)
  | .done none => game.RerollDices diceIndexes r

/-- The reroll-by-count branch of `main` (lines 400-407): `CanReroll`, and
`Reroll` only when the guard returned `nil`. -/
def guardedReroll (game : Game) (dicesNum : Int) (r : Rand) : Res (Game × Rand × Option Err) :=
  match game.CanReroll dicesNum with
  | some err => .done (game, r, some err)
  | none => game.Reroll dicesNum r

/-- The blood-surge branch of `main` (lines 412-421) on the main game:
`CanBloodSurge`, and `BloodSurge` only when the guard returned `nil`.  The
rouse check printed in between rolls a game of its own and draws from the
random source first. -/
def guardedBloodSurge (game : Game) (r : Rand) : Res (Game × Rand × Option Err) :=
  match game.CanBloodSurge with
  | some err => .done (game, r, some err)
  | none =>
    match rcCheckGame r with
    | .crash => .crash
    | .done (_, r1) => .done ((game.BloodSurge r1).1, (game.BloodSurge r1).2, none)

/-- A fixed random source used in the examples: raw draw number `i` is `7 * i + 2`. -/
def sampleRand : Rand :=
  { stream := fun i => 7 * i + 2, pos := 0 }

/-- Whether a call that returns `(state, random source, error)` returned a
non-nil error; a crash returns nothing. -/
def Res.isError : Res (Game × Rand × Option Err) → Bool
  | .done (_, _, some _) => true
  | .done (_, _, none) => false
  | .crash => false

/-- One operation on the game other than `SetUp` and `Roll`: a call of
`RerollDices` or of `Reroll` that returns (with an error or without), or a
call of `BloodSurge`.  The guards `CanRerollDices`, `CanReroll` and
`CanBloodSurge` do not change the game. -/
inductive CycleStep : Game → Game → Prop where
  | rerollDices (game : Game) (diceIndexes : List Int) (r : Rand) (game1 : Game) (r1 : Rand)
      (err : Option Err) (h : game.RerollDices diceIndexes r = .done (game1, r1, err)) :
      CycleStep game game1
  | reroll (game : Game) (dicesNum : Int) (r : Rand) (game1 : Game) (r1 : Rand)
      (err : Option Err) (h : game.Reroll dicesNum r = .done (game1, r1, err)) :
      CycleStep game game1
  | bloodSurge (game : Game) (r : Rand) : CycleStep game (game.BloodSurge r).1

/-- Any number of operations other than `SetUp` and `Roll`, in sequence. -/
def CycleSteps : Game → Game → Prop :=
  Relation.ReflTransGen CycleStep

/-- The game after `SetUp(2, 1, 0)` and `Roll` under `sampleRand`: a Normal die
showing 3 and a Hunger die showing 10. -/
def sampleGame : Game :=
  { dices := [.NormalDice 3 .Normal, .HungerDice 10 .Hunger], difficulty := 0,
    hasHungerCrit := true, hasHungerFail := false, usedReroll := false,
    usedBloodSurge := false, successes := 1, critSuccesses := 1, result := "Success" }

/-- The game after `SetUp(2, 1, 0)`, before any roll. -/
def sampleSetUp : Game :=
  { dices := [.NormalDice 0 .Normal, .HungerDice 0 .Hunger], difficulty := 0,
    hasHungerCrit := false, hasHungerFail := false, usedReroll := false,
    usedBloodSurge := false, successes := 0, critSuccesses := 0, result := "" }

/-- The game `sampleGame` after `RerollDices([0])` under `sampleRand`. -/
def sampleRerolled : Game :=
  { dices := [.NormalDice 3 .Normal, .HungerDice 10 .Hunger], difficulty := 0,
    hasHungerCrit := true, hasHungerFail := false, usedReroll := true,
    usedBloodSurge := false, successes := 1, critSuccesses := 1, result := "Success" }

/-- Two dice of the same kind: the same dynamic type and the same `Type`
field, so that they differ at most in `Value`. -/
def Dice.sameKind : Dice → Dice → Prop
  | .NormalDice _ t, .NormalDice _ u => t = u
  | .HungerDice _ t, .HungerDice _ u => t = u
  | .NormalDice _ _, .HungerDice _ _ => False
  | .HungerDice _ _, .NormalDice _ _ => False

/-- The random source `r` after `k` further draws. -/
def Rand.after (r : Rand) (k : Nat) : Rand :=
  { stream := r.stream, pos := r.pos + k }

/-- The game with its derived fields zeroed and cleared, as every caller of
`compute` sets them first (lines 141-145, 260-264, 280-284, 317-321). -/
def Game.zeroed (game : Game) : Game :=
  { game with
    hasHungerCrit := false, hasHungerFail := false, successes := 0, critSuccesses := 0,
    result := "" }

/-- The derived fields of the game are those that `compute` gives for its
current pool when started from zeroed counters and cleared flags. -/
def Game.Consistent (game : Game) : Prop :=
  game.zeroed.compute = game

/-- One operation of play after a set-up: `Roll`, a `RerollDices` or a `Reroll`
that returned nil, or `BloodSurge`. -/
inductive PlayStep : Game → Game → Prop where
  | roll (game : Game) (r : Rand) : PlayStep game (game.Roll r).1
  | rerollDices (game : Game) (diceIndexes : List Int) (r : Rand) (game1 : Game) (r1 : Rand)
      (h : game.RerollDices diceIndexes r = .done (game1, r1, none)) : PlayStep game game1
  | reroll (game : Game) (dicesNum : Int) (r : Rand) (game1 : Game) (r1 : Rand)
      (h : game.Reroll dicesNum r = .done (game1, r1, none)) : PlayStep game game1
  | bloodSurge (game : Game) (r : Rand) : PlayStep game (game.BloodSurge r).1

/-- Any number of operations of play, in sequence. -/
def PlaySteps : Game → Game → Prop :=
  Relation.ReflTransGen PlayStep

/-- The number of dice of a pool whose `GetType` is `Normal`. -/
def normalCount (dices : List Dice) : Nat :=
  dices.countP (fun d => decide (d.GetType = .Normal))

/-- The state in which `RerollDices` and `Reroll` call `compute` (lines 260-269,
280-295): derived fields zeroed, `usedReroll` set, the pool as the loop left it. -/
def Game.beforeCompute (game : Game) (dices1 : List Dice) : Game :=
  { dices := dices1, difficulty := game.difficulty, hasHungerCrit := false,
    hasHungerFail := false, usedReroll := true, usedBloodSurge := game.usedBloodSurge,
    successes := 0, critSuccesses := 0, result := "" }

end Vtmdice

namespace Vtmdice

/-! ## Helper lemmas -/

theorem land_one_of_nonneg (c : Int) (h : 0 ≤ c) : Int.land c 1 = c % 2 := by
  obtain ⟨n, rfl⟩ := Int.eq_ofNat_of_zero_le h
  show ((n &&& 1 : Nat) : Int) = (n : Int) % 2
  rw [Nat.and_one_is_mod]
  rfl

theorem critBonus_of_nonneg (c : Int) (h : 0 ≤ c) : critBonus c = c * 2 - c % 2 := by
  unfold critBonus
  rw [land_one_of_nonneg c h]

/-- The loop of `compute` from arbitrary starting counters: it adds to the
counters, ors into the flags and touches nothing else. -/
theorem foldl_computeStep (dices : List Dice) (game : Game) :
    (dices.foldl computeStep game).successes
        = game.successes + (dices.countP (fun d => d.GetResult = .Success) : Nat) ∧
    (dices.foldl computeStep game).critSuccesses
        = game.critSuccesses + (dices.countP (fun d => d.GetResult = .CriticalSuccess) : Nat) ∧
    (dices.foldl computeStep game).hasHungerCrit
        = (game.hasHungerCrit ||
            dices.any (fun d => d.GetResult = .CriticalSuccess ∧ d.GetType = .Hunger)) ∧
    (dices.foldl computeStep game).hasHungerFail
        = (game.hasHungerFail || dices.any (fun d => d.GetResult = .BestialFail)) ∧
    (dices.foldl computeStep game).dices = game.dices ∧
    (dices.foldl computeStep game).difficulty = game.difficulty ∧
    (dices.foldl computeStep game).usedReroll = game.usedReroll ∧
    (dices.foldl computeStep game).usedBloodSurge = game.usedBloodSurge := by
  induction dices generalizing game with
  | nil => simp
  | cons d rest ih =>
    simp only [List.foldl_cons]
    obtain ⟨h1, h2, h3, h4, h5, h6, h7, h8⟩ := ih (computeStep game d)
    rw [h1, h2, h3, h4, h5, h6, h7, h8]
    cases hres : d.GetResult <;> cases hty : d.GetType <;>
      simp [computeStep, hres, hty, List.countP_cons] <;> omega

/-- What `compute` leaves alone: the pool, the difficulty and the two one-shot flags. -/
theorem compute_frame (game : Game) :
    game.compute.dices = game.dices ∧ game.compute.difficulty = game.difficulty ∧
    game.compute.usedReroll = game.usedReroll ∧
    game.compute.usedBloodSurge = game.usedBloodSurge := by
  obtain ⟨-, -, -, -, h5, h6, h7, h8⟩ := foldl_computeStep game.dices game
  exact ⟨h5, h6, h7, h8⟩

theorem indexDice_lt {dices : List Dice} {index : Int} {dice : Dice}
    (h : indexDice dices index = some dice) : 0 ≤ index ∧ index.toNat < dices.length := by
  unfold indexDice at h
  split_ifs at h with hneg
  refine ⟨by omega, ?_⟩
  rw [List.get?_eq_some] at h
  exact h.1

theorem rerollDicesLoop_length (diceIndexes : List Int) :
    ∀ (dices : List Dice) (r : Rand) (dices1 : List Dice) (r1 : Rand),
      rerollDicesLoop dices diceIndexes r = .done (dices1, r1) →
      dices1.length = dices.length := by
  induction diceIndexes with
  | nil =>
    intro dices r dices1 r1 h
    simp only [rerollDicesLoop, Res.done.injEq, Prod.mk.injEq] at h
    rw [← h.1]
  | cons index rest ih =>
    intro dices r dices1 r1 h
    unfold rerollDicesLoop at h
    cases hi : indexDice dices index with
    | none => simp [hi] at h
    | some dice =>
      simp only [hi] at h
      rw [ih _ _ _ _ h, List.length_set]

theorem rerollLoop_length (dices : List Dice) :
    ∀ (normalDices dicesNum : Int) (r : Rand) (dices1 : List Dice) (r1 : Rand),
      rerollLoop dices normalDices dicesNum r = .done (dices1, r1) →
      dices1.length = dices.length := by
  induction dices with
  | nil =>
    intro normalDices dicesNum r dices1 r1 h
    unfold rerollLoop at h
    split_ifs at h
    simp only [Res.done.injEq, Prod.mk.injEq] at h
    rw [← h.1]
  | cons dice rest ih =>
    intro normalDices dicesNum r dices1 r1 h
    unfold rerollLoop at h
    split_ifs at h with h1 h2
    · cases hl : rerollLoop rest (normalDices + 1) dicesNum (dice.Roll r).2 with
      | crash => simp [hl] at h
      | done p =>
        obtain ⟨ds, r2⟩ := p
        simp only [hl, Res.done.injEq, Prod.mk.injEq] at h
        rw [← h.1, List.length_cons, List.length_cons, ih _ _ _ _ _ hl]
    · cases hl : rerollLoop rest normalDices dicesNum r with
      | crash => simp [hl] at h
      | done p =>
        obtain ⟨ds, r2⟩ := p
        simp only [hl, Res.done.injEq, Prod.mk.injEq] at h
        rw [← h.1, List.length_cons, List.length_cons, ih _ _ _ _ _ hl]
    · simp only [Res.done.injEq, Prod.mk.injEq] at h
      rw [← h.1]

/-- A call of `RerollDices` that returns either found `usedReroll` set and
changed nothing, or found it clear, set it and kept the pool length, the
difficulty and `usedBloodSurge`. -/
theorem RerollDices_done {game : Game} {diceIndexes : List Int} {r : Rand} {game1 : Game}
    {r1 : Rand} {err : Option Err}
    (h : game.RerollDices diceIndexes r = .done (game1, r1, err)) :
    (game.usedReroll = true ∧ game1 = game ∧ r1 = r ∧ err = some .alreadyRerolled) ∨
    (game.usedReroll = false ∧ err = none ∧ game1.usedReroll = true ∧
      game1.usedBloodSurge = game.usedBloodSurge ∧
      game1.dices.length = game.dices.length ∧ game1.difficulty = game.difficulty) := by
  unfold Game.RerollDices at h
  by_cases hu : game.usedReroll = true
  · left
    rw [if_pos hu] at h
    simp only [Res.done.injEq, Prod.mk.injEq] at h
    exact ⟨hu, h.1.symm, h.2.1.symm, h.2.2.symm⟩
  · right
    rw [if_neg hu] at h
    cases hl : rerollDicesLoop game.dices diceIndexes r with
    | crash => simp [hl] at h
    | done p =>
      obtain ⟨ds, r2⟩ := p
      simp only [hl, Res.done.injEq, Prod.mk.injEq] at h
      obtain ⟨hg, -, he⟩ := h
      have hlen := rerollDicesLoop_length _ _ _ _ _ hl
      subst hg
      refine ⟨by simpa using hu, he.symm, ?_, ?_, ?_, ?_⟩
      · rw [(compute_frame _).2.2.1]
      · rw [(compute_frame _).2.2.2]
      · rw [(compute_frame _).1]
        exact hlen
      · rw [(compute_frame _).2.1]

/-- The same for `Reroll`. -/
theorem Reroll_done {game : Game} {dicesNum : Int} {r : Rand} {game1 : Game}
    {r1 : Rand} {err : Option Err}
    (h : game.Reroll dicesNum r = .done (game1, r1, err)) :
    (game.usedReroll = true ∧ game1 = game ∧ r1 = r ∧ err = some .alreadyRerolled) ∨
    (game.usedReroll = false ∧ err = none ∧ game1.usedReroll = true ∧
      game1.usedBloodSurge = game.usedBloodSurge ∧
      game1.dices.length = game.dices.length ∧ game1.difficulty = game.difficulty) := by
  unfold Game.Reroll at h
  by_cases hu : game.usedReroll = true
  · left
    rw [if_pos hu] at h
    simp only [Res.done.injEq, Prod.mk.injEq] at h
    exact ⟨hu, h.1.symm, h.2.1.symm, h.2.2.symm⟩
  · right
    rw [if_neg hu] at h
    cases hl : rerollLoop game.dices 0 dicesNum r with
    | crash => simp [hl] at h
    | done p =>
      obtain ⟨ds, r2⟩ := p
      simp only [hl, Res.done.injEq, Prod.mk.injEq] at h
      obtain ⟨hg, -, he⟩ := h
      have hlen := rerollLoop_length _ _ _ _ _ _ hl
      subst hg
      refine ⟨by simpa using hu, he.symm, ?_, ?_, ?_, ?_⟩
      · rw [(compute_frame _).2.2.1]
      · rw [(compute_frame _).2.2.2]
      · rw [(compute_frame _).1]
        exact hlen
      · rw [(compute_frame _).2.1]

/-- What `BloodSurge` does to the flags, the difficulty and the pool length. -/
theorem BloodSurge_frame (game : Game) (r : Rand) :
    (game.BloodSurge r).1.usedBloodSurge = true ∧
    (game.BloodSurge r).1.usedReroll = game.usedReroll ∧
    (game.BloodSurge r).1.difficulty = game.difficulty ∧
    (game.BloodSurge r).1.dices.length = game.dices.length + 2 := by
  unfold Game.BloodSurge
  refine ⟨?_, ?_, ?_, ?_⟩
  · rw [(compute_frame _).2.2.2]
  · rw [(compute_frame _).2.2.1]
  · rw [(compute_frame _).2.1]
  · rw [(compute_frame _).1]
    simp

/-- No operation other than `SetUp` and `Roll` clears a one-shot flag or
shrinks the pool. -/
theorem CycleStep_mono {game game1 : Game} (h : CycleStep game game1) :
    (game.usedReroll = true → game1.usedReroll = true) ∧
    (game.usedBloodSurge = true → game1.usedBloodSurge = true) ∧
    game.dices.length ≤ game1.dices.length := by
  cases h with
  | rerollDices diceIndexes r _ r1 err h =>
    rcases RerollDices_done h with ⟨-, hg, -, -⟩ | ⟨-, -, h3, h4, h5, -⟩
    · subst hg
      exact ⟨id, id, le_refl _⟩
    · exact ⟨fun _ => h3, fun hb => h4.trans hb, le_of_eq h5.symm⟩
  | reroll dicesNum r _ r1 err h =>
    rcases Reroll_done h with ⟨-, hg, -, -⟩ | ⟨-, -, h3, h4, h5, -⟩
    · subst hg
      exact ⟨id, id, le_refl _⟩
    · exact ⟨fun _ => h3, fun hb => h4.trans hb, le_of_eq h5.symm⟩
  | bloodSurge r =>
    obtain ⟨h1, h2, -, h4⟩ := BloodSurge_frame game r
    exact ⟨fun hu => h2.trans hu, fun _ => h1, by omega⟩

theorem CycleSteps_mono {game game1 : Game} (h : CycleSteps game game1) :
    (game.usedReroll = true → game1.usedReroll = true) ∧
    (game.usedBloodSurge = true → game1.usedBloodSurge = true) ∧
    game.dices.length ≤ game1.dices.length := by
  induction h with
  | refl => exact ⟨id, id, le_refl _⟩
  | tail _ hstep ih =>
    obtain ⟨h1, h2, h3⟩ := CycleStep_mono hstep
    exact ⟨fun hu => h1 (ih.1 hu), fun hb => h2 (ih.2.1 hb), le_trans ih.2.2 h3⟩

theorem RerollDices_isError (game : Game) (diceIndexes : List Int) (r : Rand) :
    (game.RerollDices diceIndexes r).isError = game.usedReroll := by
  unfold Game.RerollDices
  by_cases hu : game.usedReroll = true
  · rw [if_pos hu, hu]
    rfl
  · rw [if_neg hu]
    have hf : game.usedReroll = false := by simpa using hu
    rw [hf]
    cases hl : rerollDicesLoop game.dices diceIndexes r with
    | crash =>
      simp only [hl]
      rfl
    | done p =>
      obtain ⟨ds, r2⟩ := p
      simp only [hl]
      rfl

theorem Reroll_isError (game : Game) (dicesNum : Int) (r : Rand) :
    (game.Reroll dicesNum r).isError = game.usedReroll := by
  unfold Game.Reroll
  by_cases hu : game.usedReroll = true
  · rw [if_pos hu, hu]
    rfl
  · rw [if_neg hu]
    have hf : game.usedReroll = false := by simpa using hu
    rw [hf]
    cases hl : rerollLoop game.dices 0 dicesNum r with
    | crash =>
      simp only [hl]
      rfl
    | done p =>
      obtain ⟨ds, r2⟩ := p
      simp only [hl]
      rfl

theorem indexDice_some {dices : List Dice} {index : Int} (h0 : 0 ≤ index)
    (h1 : index < dices.length) : ∃ dice, indexDice dices index = some dice := by
  unfold indexDice
  rw [if_neg (by omega)]
  have hlt : index.toNat < dices.length := by omega
  exact ⟨dices.get ⟨index.toNat, hlt⟩, List.get?_eq_get hlt⟩

/-- The guard `CanRerollDices` on non-negative indexes: it returns `nil` and
every listed index points to a die that is not a Hunger die, or it returns the
error of the first offending index, all indexes listed before it being fine. -/
theorem canRerollDicesLoop_cases (dices : List Dice) (diceIndexes : List Int)
    (hnn : ∀ i ∈ diceIndexes, 0 ≤ i) :
    (canRerollDicesLoop dices diceIndexes = .done none ∧
      ∀ i ∈ diceIndexes, ∃ d, indexDice dices i = some d ∧ d.GetType ≠ .Hunger) ∨
    (∃ pre j post, diceIndexes = pre ++ j :: post ∧
      (∀ i ∈ pre, ∃ d, indexDice dices i = some d ∧ d.GetType ≠ .Hunger) ∧
      canRerollDicesLoop dices diceIndexes = .done (some (.indexIsHungerDice j)) ∧
      ∃ d, indexDice dices j = some d ∧ d.GetType = .Hunger) ∨
    (∃ pre j post, diceIndexes = pre ++ j :: post ∧
      (∀ i ∈ pre, ∃ d, indexDice dices i = some d ∧ d.GetType ≠ .Hunger) ∧
      canRerollDicesLoop dices diceIndexes = .done (some (.indexOutOfRange j)) ∧
      (dices.length : Int) ≤ j) := by
  induction diceIndexes with
  | nil =>
    left
    exact ⟨rfl, fun i hi => absurd hi (List.not_mem_nil i)⟩
  | cons index rest ih =>
    have h0 : 0 ≤ index := hnn index (List.mem_cons_self _ _)
    have ih1 := ih (fun i hi => hnn i (List.mem_cons_of_mem _ hi))
    unfold canRerollDicesLoop
    by_cases hgt : index > (dices.length : Int) - 1
    · right
      right
      refine ⟨[], index, rest, rfl, fun i hi => absurd hi (List.not_mem_nil i), ?_, by omega⟩
      rw [if_pos hgt]
    · rw [if_neg hgt]
      obtain ⟨dice, hd⟩ := indexDice_some h0 (by omega : index < dices.length)
      simp only [hd]
      by_cases hty : dice.GetType = .Hunger
      · right
        left
        refine ⟨[], index, rest, rfl, fun i hi => absurd hi (List.not_mem_nil i), ?_,
          dice, hd, hty⟩
        rw [if_pos hty]
      · rw [if_neg hty]
        have hfine : ∀ pre : List Int,
            (∀ i ∈ pre, ∃ d, indexDice dices i = some d ∧ d.GetType ≠ .Hunger) →
            ∀ i ∈ index :: pre, ∃ d, indexDice dices i = some d ∧ d.GetType ≠ .Hunger := by
          intro pre hpre i hi
          rcases List.mem_cons.mp hi with rfl | hi
          · exact ⟨dice, hd, hty⟩
          · exact hpre i hi
        rcases ih1 with ⟨h1, h2⟩ | ⟨pre, j, post, h1, h2, h3, h4⟩ | ⟨pre, j, post, h1, h2, h3, h4⟩
        · left
          exact ⟨h1, hfine rest h2⟩
        · right
          left
          exact ⟨index :: pre, j, post, by rw [h1]; rfl, hfine pre h2, h3, h4⟩
        · right
          right
          exact ⟨index :: pre, j, post, by rw [h1]; rfl, hfine pre h2, h3, h4⟩

theorem appendLoop_eq (d : Dice) (n : Nat) :
    ∀ dices : List Dice, (dices.length : Int) + n ≤ maxSliceCap →
      appendLoop d n dices = .done (dices ++ List.replicate n d) := by
  induction n with
  | zero =>
    intro dices _
    simp [appendLoop]
  | succ k ih =>
    intro dices hlen
    have h1 : ¬ ((dices.length : Int) + 1 > maxSliceCap) := by
      push_cast at hlen
      omega
    have h2 : ((dices ++ [d]).length : Int) + k ≤ maxSliceCap := by
      rw [List.length_append, List.length_singleton]
      push_cast at hlen ⊢
      omega
    rw [appendLoop, if_neg h1, ih _ h2, List.replicate_succ, List.append_assoc]
    rfl

theorem wrap64_of_range (x : Int) (h0 : -(2 ^ 63) ≤ x) (h1 : x < 2 ^ 63) : wrap64 x = x := by
  unfold wrap64
  rw [Int.emod_eq_of_lt (by omega) (by omega)]
  omega

/-- The counters of `compute`, started from zero, stay between 0 and three
times the pool length (and the doubled critical count below twice the pool
length), so on a Go slice no `int64` operation of `compute` wraps. -/
theorem compute_counters_bounded (game : Game) (hs : game.successes = 0)
    (hc : game.critSuccesses = 0) :
    0 ≤ game.compute.critSuccesses ∧ game.compute.critSuccesses ≤ game.dices.length ∧
    0 ≤ game.compute.successes ∧ game.compute.successes ≤ 3 * game.dices.length := by
  obtain ⟨h1, h2, -⟩ := foldl_computeStep game.dices game
  have e1 : game.compute.critSuccesses
      = (game.dices.countP (fun d => d.GetResult = .CriticalSuccess) : Nat) := by
    show (game.dices.foldl computeStep game).critSuccesses = _
    rw [h2, hc, zero_add]
  have e2 : game.compute.successes
      = (game.dices.countP (fun d => d.GetResult = .Success) : Nat)
        + critBonus (game.dices.countP (fun d => d.GetResult = .CriticalSuccess) : Nat) := by
    show (game.dices.foldl computeStep game).successes
      + critBonus (game.dices.foldl computeStep game).critSuccesses = _
    rw [h1, h2, hs, hc, zero_add, zero_add]
  have b1 := List.countP_le_length (fun d : Dice => decide (d.GetResult = .CriticalSuccess))
    (l := game.dices)
  have b2 := List.countP_le_length (fun d : Dice => decide (d.GetResult = .Success))
    (l := game.dices)
  rw [e1, e2, critBonus_of_nonneg _ (Int.ofNat_nonneg _)]
  omega

/-! ### Single dice -/

theorem Roll_snd (d : Dice) (r : Rand) : (d.Roll r).2 = r.after 1 := by
  cases d <;> rfl

theorem Roll_fst_after (d : Dice) (r : Rand) (k : Nat) :
    ((d.Roll (r.after k)).1.GetValue = Int.ofNat (r.stream (r.pos + k)) % 10 + 1) := by
  cases d <;> rfl

theorem Roll_value (d : Dice) (r : Rand) :
    1 ≤ (d.Roll r).1.GetValue ∧ (d.Roll r).1.GetValue ≤ 10 := by
  have h1 := Int.emod_nonneg (Int.ofNat (r.stream r.pos)) (by decide : (10 : Int) ≠ 0)
  have h2 := Int.emod_lt_of_pos (Int.ofNat (r.stream r.pos)) (by decide : (0 : Int) < 10)
  cases d <;>
    · simp only [Dice.Roll, Dice.GetValue, Rand.Intn, DICE_MAX]
      omega

theorem Roll_sameKind (d : Dice) (r : Rand) : (d.Roll r).1.sameKind d := by
  cases d <;> simp [Dice.Roll, Dice.sameKind]

theorem Roll_Roll (d : Dice) (r1 r : Rand) : ((d.Roll r1).1.Roll r).1 = (d.Roll r).1 := by
  cases d <;> rfl

theorem sameKind_refl (d : Dice) : d.sameKind d := by
  cases d <;> simp [Dice.sameKind]

theorem sameKind_symm {a b : Dice} (h : a.sameKind b) : b.sameKind a := by
  cases a <;> cases b <;> simp_all [Dice.sameKind]

theorem sameKind_trans {a b c : Dice} (h1 : a.sameKind b) (h2 : b.sameKind c) :
    a.sameKind c := by
  cases a <;> cases b <;> cases c <;> simp_all [Dice.sameKind]

theorem sameKind_GetType {a b : Dice} (h : a.sameKind b) : a.GetType = b.GetType := by
  cases a <;> cases b <;> simp_all [Dice.sameKind, Dice.GetType]

theorem after_after (r : Rand) (j k : Nat) : (r.after j).after k = r.after (j + k) := by
  simp [Rand.after, Nat.add_assoc]

theorem after_zero (r : Rand) : r.after 0 = r := rfl

/-! ### Pools of the same kinds -/

theorem forall2_sameKind_refl (dices : List Dice) : List.Forall₂ Dice.sameKind dices dices := by
  induction dices with
  | nil => exact List.Forall₂.nil
  | cons d rest ih => exact List.Forall₂.cons (sameKind_refl d) ih

theorem forall2_sameKind_trans {a b c : List Dice} (h1 : List.Forall₂ Dice.sameKind a b)
    (h2 : List.Forall₂ Dice.sameKind b c) : List.Forall₂ Dice.sameKind a c := by
  induction h1 generalizing c with
  | nil =>
    cases h2
    exact List.Forall₂.nil
  | cons hab _ ih =>
    cases h2 with
    | cons hbc hrest => exact List.Forall₂.cons (sameKind_trans hab hbc) (ih hrest)

theorem forall2_sameKind_set (dices : List Dice) :
    ∀ (n : Nat) (d d1 : Dice), dices.get? n = some d → d1.sameKind d →
      List.Forall₂ Dice.sameKind (dices.set n d1) dices := by
  induction dices with
  | nil =>
    intro n d d1 h
    simp at h
  | cons x rest ih =>
    intro n d d1 h hk
    cases n with
    | zero =>
      simp only [List.get?_cons_zero, Option.some.injEq] at h
      subst h
      exact List.Forall₂.cons hk (forall2_sameKind_refl rest)
    | succ m =>
      simp only [List.get?_cons_succ] at h
      exact List.Forall₂.cons (sameKind_refl x) (ih m d d1 h hk)

theorem forall2_sameKind_map_GetType {a b : List Dice} (h : List.Forall₂ Dice.sameKind a b) :
    a.map Dice.GetType = b.map Dice.GetType := by
  induction h with
  | nil => rfl
  | cons hab _ ih => rw [List.map_cons, List.map_cons, sameKind_GetType hab, ih]

/-! ### The loop of `Roll` -/

theorem rollAll_spec (dices : List Dice) :
    ∀ r : Rand,
      (rollAll dices r).2 = r.after dices.length ∧
      List.Forall₂ Dice.sameKind (rollAll dices r).1 dices ∧
      (∀ d ∈ (rollAll dices r).1, 1 ≤ d.GetValue ∧ d.GetValue ≤ 10) ∧
      ∀ i : Nat, (rollAll dices r).1.get? i
        = (dices.get? i).map (fun d => (d.Roll (r.after i)).1) := by
  induction dices with
  | nil =>
    intro r
    refine ⟨rfl, List.Forall₂.nil, ?_, ?_⟩
    · intro d hd
      simp [rollAll] at hd
    · intro i
      simp [rollAll]
  | cons x rest ih =>
    intro r
    obtain ⟨h1, h2, h3, h4⟩ := ih (x.Roll r).2
    simp only [rollAll]
    refine ⟨?_, List.Forall₂.cons (Roll_sameKind x r) h2, ?_, ?_⟩
    · rw [h1, Roll_snd, after_after, List.length_cons, Nat.add_comm]
    · intro d hd
      rcases List.mem_cons.mp hd with rfl | hd
      · exact Roll_value x r
      · exact h3 d hd
    · intro i
      cases i with
      | zero => rfl
      | succ j =>
        simp only [List.get?_cons_succ]
        rw [h4 j, Roll_snd, after_after, Nat.add_comm]

/-! ### The loop of `RerollDices` -/

theorem indexDice_get? {dices : List Dice} {index : Int} {dice : Dice}
    (h : indexDice dices index = some dice) : dices.get? index.toNat = some dice := by
  unfold indexDice at h
  split_ifs at h
  exact h

/-- The loop of `RerollDices` on in-range indexes: it runs to its end, draws
once per listed index, keeps the kind of every die, leaves every die that is
not listed as it was, and a listed die ends with the roll of its last
occurrence in the list. -/
theorem rerollDicesLoop_spec (diceIndexes : List Int) :
    ∀ (dices : List Dice) (r : Rand),
      (∀ i ∈ diceIndexes, 0 ≤ i ∧ i < dices.length) →
      ∃ dices1,
        rerollDicesLoop dices diceIndexes r = .done (dices1, r.after diceIndexes.length) ∧
        List.Forall₂ Dice.sameKind dices1 dices ∧
        (∀ j : Nat, (j : Int) ∉ diceIndexes → dices1.get? j = dices.get? j) ∧
        (∀ (k : Nat) (i : Int), diceIndexes.get? k = some i →
          (∀ k1, k < k1 → diceIndexes.get? k1 ≠ some i) →
          dices1.get? i.toNat
            = (dices.get? i.toNat).map (fun d => (d.Roll (r.after k)).1)) := by
  induction diceIndexes with
  | nil =>
    intro dices r _
    refine ⟨dices, rfl, forall2_sameKind_refl dices, fun _ _ => rfl, ?_⟩
    intro k i hk
    simp at hk
  | cons index rest ih =>
    intro dices r hin
    obtain ⟨h0, hlt⟩ := hin index (List.mem_cons_self _ _)
    obtain ⟨dice, hd⟩ := indexDice_some h0 hlt
    have hget : dices.get? index.toNat = some dice := indexDice_get? hd
    have hnat : index.toNat < dices.length := by omega
    have hin1 : ∀ i ∈ rest,
        0 ≤ i ∧ i < (dices.set index.toNat (dice.Roll r).1).length := by
      intro i hi
      rw [List.length_set]
      exact hin i (List.mem_cons_of_mem _ hi)
    obtain ⟨dices1, e1, e2, e3, e4⟩ :=
      ih (dices.set index.toNat (dice.Roll r).1) (dice.Roll r).2 hin1
    refine ⟨dices1, ?_, ?_, ?_, ?_⟩
    · unfold rerollDicesLoop
      simp only [hd]
      rw [e1, Roll_snd, after_after, List.length_cons, Nat.add_comm]
    · exact forall2_sameKind_trans e2
        (forall2_sameKind_set dices index.toNat dice _ hget (Roll_sameKind dice r))
    · intro j hj
      have hne : index.toNat ≠ j := by
        intro he
        apply hj
        rw [← he, Int.toNat_of_nonneg h0]
        exact List.mem_cons_self _ _
      rw [e3 j (fun hm => hj (List.mem_cons_of_mem _ hm)), List.get?_set_ne _ _ hne]
    · intro k i hk hlast
      cases k with
      | zero =>
        simp only [List.get?_cons_zero, Option.some.injEq] at hk
        subst hk
        have hnot : ((index.toNat : Nat) : Int) ∉ rest := by
          rw [Int.toNat_of_nonneg h0]
          intro hm
          obtain ⟨n, hn⟩ := List.mem_iff_get?.mp hm
          exact hlast (n + 1) (Nat.succ_pos n) (by rw [List.get?_cons_succ]; exact hn)
        rw [e3 _ hnot, List.get?_set_eq_of_lt _ hnat, hget]
        rfl
      | succ k1 =>
        rw [List.get?_cons_succ] at hk
        have hlast1 : ∀ k2, k1 < k2 → rest.get? k2 ≠ some i := by
          intro k2 hk2
          have := hlast (k2 + 1) (Nat.succ_lt_succ hk2)
          rwa [List.get?_cons_succ] at this
        rw [e4 k1 i hk hlast1, Roll_snd, after_after, Nat.add_comm 1 k1]
        by_cases he : index.toNat = i.toNat
        · rw [← he, List.get?_set_eq_of_lt _ hnat, hget, Option.map_some', Option.map_some',
            Roll_Roll]
        · rw [List.get?_set_ne _ _ he]

/-! ### Counting Normal dice, and the loop of `Reroll` -/

theorem normalCount_nil : normalCount [] = 0 := rfl

theorem normalCount_cons_normal {d : Dice} (rest : List Dice) (h : d.GetType = .Normal) :
    normalCount (d :: rest) = normalCount rest + 1 := by
  unfold normalCount
  rw [List.countP_cons_of_pos _ _ (by simpa using h)]

theorem normalCount_cons_other {d : Dice} (rest : List Dice) (h : ¬ d.GetType = .Normal) :
    normalCount (d :: rest) = normalCount rest := by
  unfold normalCount
  rw [List.countP_cons_of_neg _ _ (by simpa using h)]

theorem countNormal_eq (dices : List Dice) :
    ∀ a : Int, countNormal dices a = a + normalCount dices := by
  induction dices with
  | nil =>
    intro a
    simp [countNormal, normalCount_nil]
  | cons d rest ih =>
    intro a
    unfold countNormal
    by_cases h : d.GetType = .Normal
    · rw [if_pos h, ih, normalCount_cons_normal rest h]
      push_cast
      omega
    · rw [if_neg h, ih, normalCount_cons_other rest h]

/-- The loop of `Reroll` on a pool with enough Normal dice left: it runs to its
end without leaving the pool, draws once per die still wanted, keeps the kind
of every die, and rolls exactly the Normal dice met while fewer than
`dicesNum` have been rolled. -/
theorem rerollLoop_spec (dices : List Dice) :
    ∀ (normalDices dicesNum : Int) (r : Rand),
      dicesNum - normalDices ≤ normalCount dices →
      ∃ dices1,
        rerollLoop dices normalDices dicesNum r
          = .done (dices1, r.after (dicesNum - normalDices).toNat) ∧
        List.Forall₂ Dice.sameKind dices1 dices ∧
        ∀ (i : Nat) (d : Dice), dices.get? i = some d →
          dices1.get? i = some
            (if d.GetType = .Normal ∧ normalDices + normalCount (dices.take i) < dicesNum
             then (d.Roll (r.after (normalCount (dices.take i)))).1 else d) := by
  induction dices with
  | nil =>
    intro normalDices dicesNum r h
    rw [normalCount_nil] at h
    refine ⟨[], ?_, List.Forall₂.nil, ?_⟩
    · unfold rerollLoop
      have hz : (dicesNum - normalDices).toNat = 0 := by omega
      rw [if_neg (by omega), hz]
      rfl
    · intro i d hd
      simp at hd
  | cons x rest ih =>
    intro normalDices dicesNum r h
    by_cases hlt : normalDices < dicesNum
    · by_cases hx : x.GetType = .Normal
      · rw [normalCount_cons_normal rest hx] at h
        obtain ⟨dices1, e1, e2, e3⟩ :=
          ih (normalDices + 1) dicesNum (x.Roll r).2 (by push_cast at h; omega)
        refine ⟨(x.Roll r).1 :: dices1, ?_, List.Forall₂.cons (Roll_sameKind x r) e2, ?_⟩
        · unfold rerollLoop
          rw [if_pos hlt, if_pos hx]
          simp only [e1]
          rw [Roll_snd, after_after]
          have hn : 1 + (dicesNum - (normalDices + 1)).toNat = (dicesNum - normalDices).toNat := by
            omega
          rw [hn]
        · intro i d hd
          cases i with
          | zero =>
            simp only [List.get?_cons_zero, Option.some.injEq] at hd
            subst hd
            simp only [List.get?_cons_zero, List.take_zero, normalCount_nil]
            rw [if_pos ⟨hx, by simpa using hlt⟩]
            rfl
          | succ j =>
            rw [List.get?_cons_succ] at hd
            rw [List.get?_cons_succ, e3 j d hd, List.take_succ_cons,
              normalCount_cons_normal _ hx, Roll_snd, after_after,
              Nat.add_comm 1 (normalCount (List.take j rest))]
            congr 1
            refine if_congr ?_ rfl rfl
            push_cast
            constructor <;> rintro ⟨h1, h2⟩ <;> exact ⟨h1, by omega⟩
      · rw [normalCount_cons_other rest hx] at h
        obtain ⟨dices1, e1, e2, e3⟩ := ih normalDices dicesNum r h
        refine ⟨x :: dices1, ?_, List.Forall₂.cons (sameKind_refl x) e2, ?_⟩
        · unfold rerollLoop
          rw [if_pos hlt, if_neg hx]
          simp only [e1]
        · intro i d hd
          cases i with
          | zero =>
            simp only [List.get?_cons_zero, Option.some.injEq] at hd
            subst hd
            simp only [List.get?_cons_zero]
            rw [if_neg (fun hc => hx hc.1)]
          | succ j =>
            rw [List.get?_cons_succ] at hd
            rw [List.get?_cons_succ, e3 j d hd, List.take_succ_cons,
              normalCount_cons_other _ hx]
    · refine ⟨x :: rest, ?_, forall2_sameKind_refl _, ?_⟩
      · unfold rerollLoop
        have hz : (dicesNum - normalDices).toNat = 0 := by omega
        rw [if_neg hlt, hz]
        rfl
      · intro i d hd
        rw [hd, if_neg (fun hc => hlt (by omega))]

/-! ### Guards -/

theorem GetType_ne_Hunger (d : Dice) : d.GetType ≠ .Hunger ↔ d.GetType = .Normal := by
  cases h : d.GetType <;> simp

theorem CanReroll_none_iff (game : Game) (dicesNum : Int) :
    game.CanReroll dicesNum = none ↔
      1 ≤ dicesNum ∧ dicesNum ≤ 3 ∧ dicesNum ≤ normalCount game.dices := by
  unfold Game.CanReroll
  simp only [countNormal_eq, zero_add]
  split_ifs with h1 h2
  · simp only [reduceCtorEq, false_iff]
    omega
  · simp only [reduceCtorEq, false_iff]
    omega
  · simp only [true_iff]
    omega

/-! ### Consistency of the derived fields -/

theorem compute_zeroed (game : Game) : game.compute.zeroed = game.zeroed := by
  obtain ⟨h1, h2, h3, h4⟩ := compute_frame game
  simp only [Game.zeroed, h1, h2, h3, h4]

theorem compute_Consistent (game : Game) (h : game.zeroed = game) :
    game.compute.Consistent := by
  unfold Game.Consistent
  rw [compute_zeroed, h]

/-! ### Normal dice before Hunger dice -/

theorem rerollDicesLoop_sameKind (diceIndexes : List Int) :
    ∀ (dices : List Dice) (r : Rand) (dices1 : List Dice) (r1 : Rand),
      rerollDicesLoop dices diceIndexes r = .done (dices1, r1) →
      List.Forall₂ Dice.sameKind dices1 dices := by
  induction diceIndexes with
  | nil =>
    intro dices r dices1 r1 h
    simp only [rerollDicesLoop, Res.done.injEq, Prod.mk.injEq] at h
    rw [← h.1]
    exact forall2_sameKind_refl dices
  | cons index rest ih =>
    intro dices r dices1 r1 h
    unfold rerollDicesLoop at h
    cases hi : indexDice dices index with
    | none => simp [hi] at h
    | some dice =>
      simp only [hi] at h
      exact forall2_sameKind_trans (ih _ _ _ _ h)
        (forall2_sameKind_set dices index.toNat dice _ (indexDice_get? hi)
          (Roll_sameKind dice r))

theorem rerollLoop_sameKind (dices : List Dice) :
    ∀ (normalDices dicesNum : Int) (r : Rand) (dices1 : List Dice) (r1 : Rand),
      rerollLoop dices normalDices dicesNum r = .done (dices1, r1) →
      List.Forall₂ Dice.sameKind dices1 dices := by
  induction dices with
  | nil =>
    intro normalDices dicesNum r dices1 r1 h
    unfold rerollLoop at h
    split_ifs at h
    simp only [Res.done.injEq, Prod.mk.injEq] at h
    rw [← h.1]
    exact List.Forall₂.nil
  | cons dice rest ih =>
    intro normalDices dicesNum r dices1 r1 h
    unfold rerollLoop at h
    split_ifs at h with h1 h2
    · cases hl : rerollLoop rest (normalDices + 1) dicesNum (dice.Roll r).2 with
      | crash => simp [hl] at h
      | done p =>
        obtain ⟨ds, r2⟩ := p
        simp only [hl, Res.done.injEq, Prod.mk.injEq] at h
        rw [← h.1]
        exact List.Forall₂.cons (Roll_sameKind dice r) (ih _ _ _ _ _ hl)
    · cases hl : rerollLoop rest normalDices dicesNum r with
      | crash => simp [hl] at h
      | done p =>
        obtain ⟨ds, r2⟩ := p
        simp only [hl, Res.done.injEq, Prod.mk.injEq] at h
        rw [← h.1]
        exact List.Forall₂.cons (sameKind_refl dice) (ih _ _ _ _ _ hl)
    · simp only [Res.done.injEq, Prod.mk.injEq] at h
      rw [← h.1]
      exact forall2_sameKind_refl _

/-- An operation of play keeps the sequence of die types, or puts two Normal
dice in front of it. -/
theorem PlayStep_types {game game1 : Game} (h : PlayStep game game1) :
    game1.dices.map Dice.GetType = game.dices.map Dice.GetType ∨
    game1.dices.map Dice.GetType
      = DiceType.Normal :: DiceType.Normal :: game.dices.map Dice.GetType := by
  cases h with
  | roll r =>
    left
    have hd : (game.Roll r).1.dices = (rollAll game.dices r).1 := by
      unfold Game.Roll
      rw [(compute_frame _).1]
    rw [hd]
    exact forall2_sameKind_map_GetType (rollAll_spec game.dices r).2.1
  | rerollDices diceIndexes r _ r1 h =>
    left
    unfold Game.RerollDices at h
    by_cases hu : game.usedReroll = true
    · rw [if_pos hu] at h
      simp at h
    · rw [if_neg hu] at h
      cases hl : rerollDicesLoop game.dices diceIndexes r with
      | crash => simp [hl] at h
      | done p =>
        obtain ⟨ds, r2⟩ := p
        simp only [hl, Res.done.injEq, Prod.mk.injEq] at h
        rw [← h.1, (compute_frame _).1]
        exact forall2_sameKind_map_GetType (rerollDicesLoop_sameKind _ _ _ _ _ hl)
  | reroll dicesNum r _ r1 h =>
    left
    unfold Game.Reroll at h
    by_cases hu : game.usedReroll = true
    · rw [if_pos hu] at h
      simp at h
    · rw [if_neg hu] at h
      cases hl : rerollLoop game.dices 0 dicesNum r with
      | crash => simp [hl] at h
      | done p =>
        obtain ⟨ds, r2⟩ := p
        simp only [hl, Res.done.injEq, Prod.mk.injEq] at h
        rw [← h.1, (compute_frame _).1]
        exact forall2_sameKind_map_GetType (rerollLoop_sameKind _ _ _ _ _ _ hl)
  | bloodSurge r =>
    right
    unfold Game.BloodSurge
    rw [(compute_frame _).1]
    rfl

/-- Play from a pool of Normal dice followed by `h` Hunger dice leads to a pool
of Normal dice followed by `h` Hunger dice. -/
theorem PlaySteps_types {game game1 : Game} (hreach : PlaySteps game game1) (k h : Nat)
    (hmap : game.dices.map Dice.GetType
      = List.replicate k .Normal ++ List.replicate h .Hunger) :
    ∃ k1, game1.dices.map Dice.GetType
      = List.replicate k1 .Normal ++ List.replicate h .Hunger := by
  induction hreach with
  | refl => exact ⟨k, hmap⟩
  | tail _ hstep ih =>
    obtain ⟨k1, hk1⟩ := ih
    rcases PlayStep_types hstep with h1 | h1
    · exact ⟨k1, h1.trans hk1⟩
    · refine ⟨k1 + 2, ?_⟩
      rw [h1, hk1]
      rfl

/-- What `SetUp` builds on counts inside the capacity limit. -/
theorem SetUp_eq (game : Game) (totalDicesCount hungerDicesCount difficulty : Int)
    (h0 : 0 ≤ hungerDicesCount) (h1 : hungerDicesCount ≤ totalDicesCount)
    (h2 : totalDicesCount ≤ maxSliceCap) :
    game.SetUp totalDicesCount hungerDicesCount difficulty = .done
      { dices :=
          List.replicate (totalDicesCount - hungerDicesCount).toNat (.NormalDice 0 .Normal)
            ++ List.replicate hungerDicesCount.toNat (.HungerDice 0 .Hunger),
        difficulty := difficulty, hasHungerCrit := false, hasHungerFail := false,
        usedReroll := false, usedBloodSurge := false, successes := 0, critSuccesses := 0,
        result := "" } := by
  have hcap : maxSliceCap = 2 ^ 44 := rfl
  unfold Game.SetUp
  rw [if_neg (by omega), wrap64_of_range _ (by omega) (by omega)]
  have e1 : appendLoop (.NormalDice 0 .Normal) (totalDicesCount - hungerDicesCount).toNat []
      = .done ([] ++ List.replicate (totalDicesCount - hungerDicesCount).toNat
          (.NormalDice 0 .Normal)) :=
    appendLoop_eq _ _ [] (by simp only [List.length_nil]; omega)
  have e2 : appendLoop (.HungerDice 0 .Hunger) hungerDicesCount.toNat
        ([] ++ List.replicate (totalDicesCount - hungerDicesCount).toNat
          (.NormalDice 0 .Normal))
      = .done (([] ++ List.replicate (totalDicesCount - hungerDicesCount).toNat
          (.NormalDice 0 .Normal))
          ++ List.replicate hungerDicesCount.toNat (.HungerDice 0 .Hunger)) :=
    appendLoop_eq _ _ _ (by
      rw [List.nil_append, List.length_replicate]
      omega)
  rw [List.nil_append] at e1 e2
  simp only [e1, e2]

theorem SetUp_done (game : Game) (totalDicesCount hungerDicesCount difficulty : Int)
    (h0 : 0 ≤ hungerDicesCount) (h1 : hungerDicesCount ≤ totalDicesCount) (game1 : Game)
    (hset : game.SetUp totalDicesCount hungerDicesCount difficulty = .done game1) :
    game1.dices =
      List.replicate (totalDicesCount - hungerDicesCount).toNat (.NormalDice 0 .Normal)
        ++ List.replicate hungerDicesCount.toNat (.HungerDice 0 .Hunger) := by
  by_cases hc : totalDicesCount < 0 ∨ totalDicesCount > maxSliceCap
  · unfold Game.SetUp at hset
    rw [if_pos hc] at hset
    simp at hset
  · rw [SetUp_eq game totalDicesCount hungerDicesCount difficulty h0 h1 (by omega)] at hset
    simp only [Res.done.injEq] at hset
    rw [← hset]

theorem ordered_facts (dices : List Dice) (k h : Nat)
    (hmap : dices.map Dice.GetType = List.replicate k .Normal ++ List.replicate h .Hunger) :
    (∀ (i : Nat) (d : Dice), dices.get? i = some d → (d.GetType = .Normal ↔ i < k)) ∧
    (∀ i : Nat, normalCount (dices.take i) = min i k) ∧
    normalCount dices = k ∧
    dices.countP (fun d => d.GetType = .Hunger) = h := by
  have hcount : ∀ l : List Dice, normalCount l
      = (l.map Dice.GetType).countP (fun t => decide (t = .Normal)) := by
    intro l
    unfold normalCount
    rw [List.countP_map]
    rfl
  refine ⟨?_, ?_, ?_, ?_⟩
  · intro i d hd
    have h1 : (dices.map Dice.GetType).get? i = some d.GetType := by
      rw [List.get?_map, hd]
      rfl
    rw [hmap] at h1
    simp only [List.get?_eq_getElem?, List.getElem?_append, List.length_replicate,
      List.getElem?_replicate] at h1
    split_ifs at h1 with h2 h3
    · simp only [Option.some.injEq] at h1
      rw [← h1]
      simp [h2]
    · simp only [Option.some.injEq] at h1
      rw [← h1]
      simp [h2]
  · intro i
    rw [hcount, List.map_take, hmap, List.take_append_eq_append_take, List.countP_append,
      List.take_replicate, List.take_replicate, List.countP_replicate, List.countP_replicate]
    simp
  · rw [hcount, hmap, List.countP_append, List.countP_replicate, List.countP_replicate]
    simp
  · have h2 : dices.countP (fun d => decide (d.GetType = .Hunger))
        = (dices.map Dice.GetType).countP (fun t => decide (t = .Hunger)) := by
      rw [List.countP_map]
      rfl
    rw [h2, hmap, List.countP_append, List.countP_replicate, List.countP_replicate]
    simp


/-! ## Claims -/

/-- C1: for a non-negative success count and a non-negative difficulty,
`calcResult` takes the success path iff (difficulty = 0 and successes > 0) or
(difficulty > 0 and successes >= difficulty); the success path gives
"Success" below two criticals, else "Messy Critical" with a hunger critical,
else "Critical Success"; the failure path gives "Bestial Failure" with a
bestial failure, else "Failure". -/
theorem calcResult_spec (game : Game) (hs : 0 ≤ game.successes) (hd : 0 ≤ game.difficulty) :
    game.calcResult =
      (if (game.difficulty = 0 ∧ game.successes > 0) ∨
          (game.difficulty > 0 ∧ game.successes ≥ game.difficulty) then
        (if game.critSuccesses < 2 then "Success"
         else if game.hasHungerCrit = true then "Messy Critical"
         else "Critical Success")
       else
        (if game.hasHungerFail = true then "Bestial Failure" else "Failure")) ∧
    (game.calcResult ∈ ["Success", "Messy Critical", "Critical Success"] ↔
      ((game.difficulty = 0 ∧ game.successes > 0) ∨
        (game.difficulty > 0 ∧ game.successes ≥ game.difficulty))) ∧
    (game.calcResult ∈ ["Bestial Failure", "Failure"] ↔
      ¬ ((game.difficulty = 0 ∧ game.successes > 0) ∨
        (game.difficulty > 0 ∧ game.successes ≥ game.difficulty))) := by
  have key : game.calcResult =
      (if (game.difficulty = 0 ∧ game.successes > 0) ∨
          (game.difficulty > 0 ∧ game.successes ≥ game.difficulty) then
        (if game.critSuccesses < 2 then "Success"
         else if game.hasHungerCrit = true then "Messy Critical"
         else "Critical Success")
       else
        (if game.hasHungerFail = true then "Bestial Failure" else "Failure")) := by
    unfold Game.calcResult Game.calcDiceResult Game.calcAgainstDifficulty
      Game.calcSuccess Game.calcFailure
    by_cases h0 : game.difficulty = 0
    · by_cases hz : game.successes = 0
      · have hc : ¬ ((game.difficulty = 0 ∧ game.successes > 0) ∨
            (game.difficulty > 0 ∧ game.successes ≥ game.difficulty)) := by omega
        rw [if_pos h0, if_pos hz, if_neg hc]
      · have hc : (game.difficulty = 0 ∧ game.successes > 0) ∨
            (game.difficulty > 0 ∧ game.successes ≥ game.difficulty) := by omega
        rw [if_pos h0, if_neg hz, if_pos hc]
    · by_cases hge : game.successes ≥ game.difficulty
      · have hc : (game.difficulty = 0 ∧ game.successes > 0) ∨
            (game.difficulty > 0 ∧ game.successes ≥ game.difficulty) := by omega
        rw [if_neg h0, if_pos hge, if_pos hc]
      · have hc : ¬ ((game.difficulty = 0 ∧ game.successes > 0) ∨
            (game.difficulty > 0 ∧ game.successes ≥ game.difficulty)) := by omega
        rw [if_neg h0, if_neg hge, if_neg hc]
  refine ⟨key, ?_, ?_⟩
  · rw [key]
    by_cases hc : (game.difficulty = 0 ∧ game.successes > 0) ∨
        (game.difficulty > 0 ∧ game.successes ≥ game.difficulty)
    · rw [if_pos hc]
      refine iff_of_true ?_ hc
      split_ifs <;> decide
    · rw [if_neg hc]
      refine iff_of_false ?_ hc
      split_ifs <;> decide
  · rw [key]
    by_cases hc : (game.difficulty = 0 ∧ game.successes > 0) ∨
        (game.difficulty > 0 ∧ game.successes ≥ game.difficulty)
    · rw [if_pos hc]
      refine iff_of_false ?_ (not_not_intro hc)
      split_ifs <;> decide
    · rw [if_neg hc]
      refine iff_of_true ?_ hc
      split_ifs <;> decide

/-- Witness of C1: three successes, two criticals of which one on a Hunger
die, against difficulty 2 is a "Messy Critical". -/
theorem calcResult_spec_witness :
    (Game.mk [] 2 true false false false 3 2 "").calcResult = "Messy Critical" ∧
    ((Game.mk [] 2 true false false false 3 2 "").calcResult
      ∈ ["Success", "Messy Critical", "Critical Success"] ↔
      (((2 : Int) = 0 ∧ (3 : Int) > 0) ∨ ((2 : Int) > 0 ∧ (3 : Int) ≥ 2))) :=
  ⟨((calcResult_spec (Game.mk [] 2 true false false false 3 2 "")
      (by decide) (by decide)).1).trans (by decide),
   (calcResult_spec (Game.mk [] 2 true false false false 3 2 "") (by decide) (by decide)).2.1⟩

/-- C2: `compute` started from zeroed counters and cleared flags ends with
`critSuccesses` the number of dice classified CriticalSuccess, `successes` the
number of dice classified Success plus `critSuccesses*2 - critSuccesses mod 2`,
`hasHungerCrit` set iff some Hunger die is classified CriticalSuccess and
`hasHungerFail` set iff some die is classified BestialFail; on the pool
[Normal 10, Normal 10, Hunger 1] that is 2 criticals, 4 successes, a bestial
failure and no hunger critical. -/
theorem compute_from_zero (game : Game) (hs : game.successes = 0) (hc : game.critSuccesses = 0)
    (hhc : game.hasHungerCrit = false) (hhf : game.hasHungerFail = false) :
    game.compute.critSuccesses
        = (game.dices.countP (fun d => d.GetResult = .CriticalSuccess) : Nat) ∧
    game.compute.successes
        = (game.dices.countP (fun d => d.GetResult = .Success) : Nat)
          + game.compute.critSuccesses * 2 - game.compute.critSuccesses % 2 ∧
    (game.compute.hasHungerCrit = true ↔
      ∃ d ∈ game.dices, d.GetType = .Hunger ∧ d.GetResult = .CriticalSuccess) ∧
    (game.compute.hasHungerFail = true ↔ ∃ d ∈ game.dices, d.GetResult = .BestialFail) ∧
    (game.dices = [.NormalDice 10 .Normal, .NormalDice 10 .Normal, .HungerDice 1 .Hunger] →
      game.compute.critSuccesses = 2 ∧ game.compute.hasHungerFail = true ∧
      game.compute.hasHungerCrit = false ∧ game.compute.successes = 4) := by
  obtain ⟨h1, h2, h3, h4, -⟩ := foldl_computeStep game.dices game
  have hcrit : game.compute.critSuccesses
      = (game.dices.countP (fun d => d.GetResult = .CriticalSuccess) : Nat) := by
    show (game.dices.foldl computeStep game).critSuccesses = _
    rw [h2, hc, zero_add]
  have hsucc : game.compute.successes
      = (game.dices.countP (fun d => d.GetResult = .Success) : Nat)
        + game.compute.critSuccesses * 2 - game.compute.critSuccesses % 2 := by
    rw [hcrit]
    show (game.dices.foldl computeStep game).successes
      + critBonus (game.dices.foldl computeStep game).critSuccesses = _
    rw [h1, h2, hs, hc, zero_add, zero_add, critBonus_of_nonneg _ (Int.ofNat_nonneg _)]
    omega
  have hcr : game.compute.hasHungerCrit = true ↔
      ∃ d ∈ game.dices, d.GetType = .Hunger ∧ d.GetResult = .CriticalSuccess := by
    show (game.dices.foldl computeStep game).hasHungerCrit = true ↔ _
    rw [h3, hhc]
    simp only [Bool.false_or, List.any_eq_true, decide_eq_true_eq]
    constructor
    · rintro ⟨d, hd, h5, h6⟩
      exact ⟨d, hd, h6, h5⟩
    · rintro ⟨d, hd, h5, h6⟩
      exact ⟨d, hd, h6, h5⟩
  have hfl : game.compute.hasHungerFail = true ↔
      ∃ d ∈ game.dices, d.GetResult = .BestialFail := by
    show (game.dices.foldl computeStep game).hasHungerFail = true ↔ _
    rw [h4, hhf]
    simp only [Bool.false_or, List.any_eq_true, decide_eq_true_eq]
  refine ⟨hcrit, hsucc, hcr, hfl, ?_⟩
  intro hd
  have e2 : game.compute.critSuccesses = 2 := by
    rw [hcrit, hd]
    decide
  have e4 : game.compute.successes = 4 := by
    rw [hsucc, e2, hd]
    decide
  refine ⟨e2, ?_, ?_, e4⟩
  · rw [hfl, hd]
    exact ⟨.HungerDice 1 .Hunger, by decide, by decide⟩
  · rw [Bool.eq_false_iff, Ne, hcr, hd]
    decide

/-- Witness of C2: the pool [Normal 10, Normal 10, Hunger 1] evaluated from
zeroed counters. -/
theorem compute_from_zero_witness :
    (Game.mk [.NormalDice 10 .Normal, .NormalDice 10 .Normal, .HungerDice 1 .Hunger]
        0 false false false false 0 0 "").compute.critSuccesses = 2 ∧
    (Game.mk [.NormalDice 10 .Normal, .NormalDice 10 .Normal, .HungerDice 1 .Hunger]
        0 false false false false 0 0 "").compute.hasHungerFail = true ∧
    (Game.mk [.NormalDice 10 .Normal, .NormalDice 10 .Normal, .HungerDice 1 .Hunger]
        0 false false false false 0 0 "").compute.hasHungerCrit = false ∧
    (Game.mk [.NormalDice 10 .Normal, .NormalDice 10 .Normal, .HungerDice 1 .Hunger]
        0 false false false false 0 0 "").compute.successes = 4 :=
  (compute_from_zero
    (Game.mk [.NormalDice 10 .Normal, .NormalDice 10 .Normal, .HungerDice 1 .Hunger]
      0 false false false false 0 0 "") rfl rfl rfl rfl).2.2.2.2 rfl

/-- C3: for a critical count `c >= 0` the bonus `critSuccesses*2 - critSuccesses&1`
that `compute` adds to `successes` is `4*(c div 2) + (c mod 2)`: four per pair
of criticals, one for an unpaired critical; for c = 0,1,2,3,4 it is 0,1,4,5,8. -/
theorem critBonus_pairs (c : Int) (h : 0 ≤ c) :
    critBonus c = 4 * (c / 2) + c % 2 ∧
    [critBonus 0, critBonus 1, critBonus 2, critBonus 3, critBonus 4] = [0, 1, 4, 5, 8] ∧
    (∀ game : Game, game.compute.critSuccesses = c →
      game.compute.successes
        = game.successes + (game.dices.countP (fun d => d.GetResult = .Success) : Nat)
          + (4 * (c / 2) + c % 2)) := by
  have hb : critBonus c = 4 * (c / 2) + c % 2 := by
    rw [critBonus_of_nonneg c h]
    omega
  refine ⟨hb, by decide, ?_⟩
  intro game hc
  obtain ⟨h1, -⟩ := foldl_computeStep game.dices game
  have hc1 : (game.dices.foldl computeStep game).critSuccesses = c := hc
  show (game.dices.foldl computeStep game).successes
    + critBonus (game.dices.foldl computeStep game).critSuccesses = _
  rw [h1, hc1, hb]

/-- Witness of C3: three criticals are worth five successes, also in `compute`
on a pool of three dice showing 10. -/
theorem critBonus_pairs_witness :
    critBonus 3 = 4 * (3 / 2) + 3 % 2 ∧
    (Game.mk [.NormalDice 10 .Normal, .NormalDice 10 .Normal, .NormalDice 10 .Normal]
      0 false false false false 0 0 "").compute.successes = 5 :=
  ⟨(critBonus_pairs 3 (by decide)).1,
   ((critBonus_pairs 3 (by decide)).2.2
      (Game.mk [.NormalDice 10 .Normal, .NormalDice 10 .Normal, .NormalDice 10 .Normal]
        0 false false false false 0 0 "") (by decide)).trans (by decide)⟩

/-- C4: for a die value `v` in [1,10], a `NormalDice` is a CriticalSuccess iff
v = 10, a Success iff 6 <= v <= 9, a Fail iff 1 <= v <= 5 and never a
BestialFail; a `HungerDice` is a CriticalSuccess iff v = 10, a BestialFail iff
v = 1, a Success iff 6 <= v <= 9 and a Fail iff 2 <= v <= 5. -/
theorem GetResult_partition (v : Int) (t : DiceType) (h1 : 1 ≤ v) (h10 : v ≤ 10) :
    ((Dice.NormalDice v t).GetResult = .CriticalSuccess ↔ v = 10) ∧
    ((Dice.NormalDice v t).GetResult = .Success ↔ 6 ≤ v ∧ v ≤ 9) ∧
    ((Dice.NormalDice v t).GetResult = .Fail ↔ 1 ≤ v ∧ v ≤ 5) ∧
    (Dice.NormalDice v t).GetResult ≠ .BestialFail ∧
    ((Dice.HungerDice v t).GetResult = .CriticalSuccess ↔ v = 10) ∧
    ((Dice.HungerDice v t).GetResult = .BestialFail ↔ v = 1) ∧
    ((Dice.HungerDice v t).GetResult = .Success ↔ 6 ≤ v ∧ v ≤ 9) ∧
    ((Dice.HungerDice v t).GetResult = .Fail ↔ 2 ≤ v ∧ v ≤ 5) := by
  simp only [Dice.GetResult, DICE_MAX]
  refine ⟨?_, ?_, ?_, ?_, ?_, ?_, ?_, ?_⟩ <;> split_ifs <;>
    simp only [reduceCtorEq, false_iff, true_iff, iff_true, iff_false, ne_eq,
      not_false_eq_true, not_true_eq_false] <;> omega

/-- Witness of C4: the value 1 is a Fail on a Normal die and a BestialFail on
a Hunger die. -/
theorem GetResult_partition_witness :
    ((Dice.NormalDice 1 .Normal).GetResult = .Fail ↔ (1 : Int) ≤ 1 ∧ (1 : Int) ≤ 5) ∧
    ((Dice.HungerDice 1 .Hunger).GetResult = .BestialFail ↔ (1 : Int) = 1) :=
  ⟨(GetResult_partition 1 .Normal (by decide) (by decide)).2.2.1,
   (GetResult_partition 1 .Hunger (by decide) (by decide)).2.2.2.2.2.1⟩

/-- C5, as stated, fails: on the game set up by `SetUp(2, 1, 0)` and rolled,
`CanBloodSurge` passes, and after `BloodSurge` both rerolls, alone and behind
their guards, complete and return no error. -/
theorem reroll_after_BloodSurge_counterexample :
    (∃ game, Game.zero.SetUp 2 1 0 = .done game ∧ (game.Roll sampleRand).1 = sampleGame) ∧
    sampleGame.CanBloodSurge = none ∧
    (∃ game r, (sampleGame.BloodSurge sampleRand).1.RerollDices [0] sampleRand
      = .done (game, r, none)) ∧
    (∃ game r, (sampleGame.BloodSurge sampleRand).1.Reroll 1 sampleRand
      = .done (game, r, none)) ∧
    (∃ game r, guardedRerollDices (sampleGame.BloodSurge sampleRand).1 [0] sampleRand
      = .done (game, r, none)) ∧
    (∃ game r, guardedReroll (sampleGame.BloodSurge sampleRand).1 1 sampleRand
      = .done (game, r, none)) :=
  ⟨⟨_, rfl, rfl⟩, rfl, ⟨_, _, rfl⟩, ⟨_, _, rfl⟩, ⟨_, _, rfl⟩, ⟨_, _, rfl⟩⟩

/-- C5, amended: in every state reached from a `BloodSurge` by operations other
than `SetUp` and `Roll`, `CanBloodSurge` returns the already-used error; the
rerolls are not blocked by the pool growth: `RerollDices` and `Reroll` return
an error iff `usedReroll` is set, `BloodSurge` leaves `usedReroll` as it was,
and so right after a `BloodSurge` that passed its guard neither reroll returns
an error. -/
theorem BloodSurge_blocks_BloodSurge_only (game : Game) (r : Rand) (game2 : Game)
    (hreach : CycleSteps (game.BloodSurge r).1 game2) :
    game2.CanBloodSurge = some .alreadyUsedBloodSurge ∧
    (∀ diceIndexes r2, (game2.RerollDices diceIndexes r2).isError = true ↔
      game2.usedReroll = true) ∧
    (∀ dicesNum r2, (game2.Reroll dicesNum r2).isError = true ↔ game2.usedReroll = true) ∧
    (game.BloodSurge r).1.usedReroll = game.usedReroll ∧
    (game.CanBloodSurge = none →
      (∀ diceIndexes r2, ((game.BloodSurge r).1.RerollDices diceIndexes r2).isError = false) ∧
      (∀ dicesNum r2, ((game.BloodSurge r).1.Reroll dicesNum r2).isError = false)) := by
  obtain ⟨hb, hu, -, hlen⟩ := BloodSurge_frame game r
  obtain ⟨-, hmb, hml⟩ := CycleSteps_mono hreach
  refine ⟨?_, ?_, ?_, hu, ?_⟩
  · unfold Game.CanBloodSurge
    rw [if_neg (by omega), if_pos (hmb hb)]
  · intro diceIndexes r2
    rw [RerollDices_isError]
  · intro dicesNum r2
    rw [Reroll_isError]
  · intro hguard
    have hfalse : game.usedReroll = false := by
      unfold Game.CanBloodSurge at hguard
      split_ifs at hguard with h1 h2 h3
      simpa using h3
    refine ⟨fun diceIndexes r2 => ?_, fun dicesNum r2 => ?_⟩
    · rw [RerollDices_isError, hu, hfalse]
    · rw [Reroll_isError, hu, hfalse]

/-- Witness of C5 amended: `sampleGame` right after its `BloodSurge`. -/
theorem BloodSurge_blocks_BloodSurge_only_witness :
    (sampleGame.BloodSurge sampleRand).1.CanBloodSurge = some .alreadyUsedBloodSurge ∧
    (sampleGame.BloodSurge sampleRand).1.usedReroll = sampleGame.usedReroll :=
  ⟨(BloodSurge_blocks_BloodSurge_only sampleGame sampleRand _ Relation.ReflTransGen.refl).1,
   (BloodSurge_blocks_BloodSurge_only sampleGame sampleRand _
      Relation.ReflTransGen.refl).2.2.2.1⟩

/-- C6: after a reroll of either kind that returned nil, and through any
further operations other than `SetUp` and `Roll`, every `RerollDices` call and
every `Reroll` call returns the already-rerolled error and leaves the game as
it is, and `CanBloodSurge` returns an error. -/
theorem reroll_is_one_shot (game : Game) (r : Rand) (game1 : Game) (r1 : Rand) (game2 : Game)
    (hfirst : (∃ diceIndexes, game.RerollDices diceIndexes r = .done (game1, r1, none)) ∨
      (∃ dicesNum, game.Reroll dicesNum r = .done (game1, r1, none)))
    (hreach : CycleSteps game1 game2) :
    (∀ diceIndexes r2,
      game2.RerollDices diceIndexes r2 = .done (game2, r2, some .alreadyRerolled)) ∧
    (∀ dicesNum r2, game2.Reroll dicesNum r2 = .done (game2, r2, some .alreadyRerolled)) ∧
    (∃ err, game2.CanBloodSurge = some err) := by
  have h1 : game1.usedReroll = true := by
    rcases hfirst with ⟨diceIndexes, h⟩ | ⟨dicesNum, h⟩
    · rcases RerollDices_done h with ⟨-, -, -, he⟩ | ⟨-, -, h3, -⟩
      · exact absurd he (by simp)
      · exact h3
    · rcases Reroll_done h with ⟨-, -, -, he⟩ | ⟨-, -, h3, -⟩
      · exact absurd he (by simp)
      · exact h3
  have h2 : game2.usedReroll = true := (CycleSteps_mono hreach).1 h1
  refine ⟨fun diceIndexes r2 => ?_, fun dicesNum r2 => ?_, ?_⟩
  · unfold Game.RerollDices
    rw [if_pos h2]
  · unfold Game.Reroll
    rw [if_pos h2]
  · unfold Game.CanBloodSurge
    split_ifs with h3 h4
    · exact ⟨_, rfl⟩
    · exact ⟨_, rfl⟩
    · exact ⟨_, rfl⟩

/-- Witness of C6: `sampleGame` rerolled at index 0; a second reroll of either
kind and a blood surge are refused. -/
theorem reroll_is_one_shot_witness :
    sampleGame.RerollDices [0] sampleRand
      = .done (sampleRerolled, ⟨sampleRand.stream, 1⟩, none) ∧
    sampleRerolled.Reroll 2 sampleRand
      = .done (sampleRerolled, sampleRand, some .alreadyRerolled) ∧
    (∃ err, sampleRerolled.CanBloodSurge = some err) :=
  ⟨rfl,
   (reroll_is_one_shot sampleGame sampleRand sampleRerolled ⟨sampleRand.stream, 1⟩
      sampleRerolled (Or.inl ⟨[0], rfl⟩) Relation.ReflTransGen.refl).2.1 2 sampleRand,
   (reroll_is_one_shot sampleGame sampleRand sampleRerolled ⟨sampleRand.stream, 1⟩
      sampleRerolled (Or.inl ⟨[0], rfl⟩) Relation.ReflTransGen.refl).2.2⟩

/-- C7, as stated, fails: `RerollDices` called on index 1 of `sampleGame`, a
Hunger die, returns nil, rerolls that die and sets `usedReroll`; and behind
the guard the index list [5, 1] is refused with the out-of-range error of
index 5, not with the hunger-dice error. -/
theorem RerollDices_hunger_counterexample :
    indexDice sampleGame.dices 1 = some (.HungerDice 10 .Hunger) ∧
    (∃ game r, sampleGame.RerollDices [1] sampleRand = .done (game, r, none) ∧
      game.dices = [.NormalDice 3 .Normal, .HungerDice 3 .Hunger] ∧
      game.usedReroll = true ∧ sampleGame.usedReroll = false) ∧
    guardedRerollDices sampleGame [5, 1] sampleRand
      = .done (sampleGame, sampleRand, some (.indexOutOfRange 5)) :=
  ⟨rfl, ⟨_, _, rfl, rfl, rfl, rfl⟩, rfl⟩

/-- C7, amended: for every game and every list of non-negative indexes
containing an index that points to a Hunger die, the guard `CanRerollDices`
returns the error of the first offending index - the hunger-dice error when
that index points to a Hunger die, the out-of-range error when it is at or
past the pool size - and the guarded reroll by index, which calls
`RerollDices` only after a nil guard, returns that error and leaves the game
and the random source unchanged; when all listed indexes are in range the
error is the hunger-dice error. -/
theorem guardedRerollDices_hunger (game : Game) (diceIndexes : List Int) (r : Rand)
    (hnn : ∀ i ∈ diceIndexes, 0 ≤ i)
    (hh : ∃ i ∈ diceIndexes, ∃ d, indexDice game.dices i = some d ∧ d.GetType = .Hunger) :
    (∃ pre j post err, diceIndexes = pre ++ j :: post ∧
      (∀ i ∈ pre, ∃ d, indexDice game.dices i = some d ∧ d.GetType ≠ .Hunger) ∧
      game.CanRerollDices diceIndexes = .done (some err) ∧
      guardedRerollDices game diceIndexes r = .done (game, r, some err) ∧
      ((err = .indexIsHungerDice j ∧
          ∃ d, indexDice game.dices j = some d ∧ d.GetType = .Hunger) ∨
       (err = .indexOutOfRange j ∧ (game.dices.length : Int) ≤ j))) ∧
    ((∀ i ∈ diceIndexes, i < game.dices.length) →
      ∃ j ∈ diceIndexes,
        guardedRerollDices game diceIndexes r
          = .done (game, r, some (.indexIsHungerDice j))) := by
  have hguarded : ∀ err, canRerollDicesLoop game.dices diceIndexes = .done (some err) →
      guardedRerollDices game diceIndexes r = .done (game, r, some err) := by
    intro err h
    simp only [guardedRerollDices, Game.CanRerollDices, h]
  rcases canRerollDicesLoop_cases game.dices diceIndexes hnn with
    ⟨-, hall⟩ | ⟨pre, j, post, h1, h2, h3, h4⟩ | ⟨pre, j, post, h1, h2, h3, h4⟩
  · exfalso
    obtain ⟨i, hi, d, hd, hty⟩ := hh
    obtain ⟨d1, hd1, hty1⟩ := hall i hi
    rw [hd] at hd1
    cases hd1
    exact hty1 hty
  · refine ⟨⟨pre, j, post, _, h1, h2, h3, hguarded _ h3, Or.inl ⟨rfl, h4⟩⟩, fun _ => ?_⟩
    exact ⟨j, by rw [h1]; simp, hguarded _ h3⟩
  · refine ⟨⟨pre, j, post, _, h1, h2, h3, hguarded _ h3, Or.inr ⟨rfl, h4⟩⟩, fun hin => ?_⟩
    exfalso
    have hj := hin j (by rw [h1]; simp)
    omega

/-- Witness of C7 amended: index 1 of `sampleGame` is its Hunger die. -/
theorem guardedRerollDices_hunger_witness :
    ∃ j ∈ [(1 : Int)],
      guardedRerollDices sampleGame [1] sampleRand
        = .done (sampleGame, sampleRand, some (.indexIsHungerDice j)) :=
  (guardedRerollDices_hunger sampleGame [1] sampleRand (by decide)
    ⟨1, List.mem_singleton.mpr rfl, _, rfl, rfl⟩).2 (by decide)

/-- C8, as stated, fails: the game built by `rcCheckGame` under `sampleRand`
has a pool of one die, a Hunger die, and no Normal die. -/
theorem rcCheckGame_counterexample :
    ∃ game r, rcCheckGame sampleRand = .done (game, r) ∧
      game.dices = [.HungerDice 3 .Hunger] ∧
      game.dices.countP (fun d => d.GetType = .Normal) = 0 :=
  ⟨_, _, rfl, rfl, rfl⟩

/-- C8, amended: the rouse-check game built by `rcCheckGame` (`SetUp(1, 1, 0)`
followed by `Roll`) has a pool of exactly one die, a Hunger die showing a
value in [1,10], and no Normal die, with difficulty 0. -/
theorem rcCheckGame_pool (r : Rand) :
    ∃ game r1 v, rcCheckGame r = .done (game, r1) ∧
      game.dices = [.HungerDice v .Hunger] ∧ 1 ≤ v ∧ v ≤ 10 ∧
      game.dices.countP (fun d => d.GetType = .Normal) = 0 ∧
      game.dices.countP (fun d => d.GetType = .Hunger) = 1 ∧
      game.difficulty = 0 := by
  have hv := Int.emod_nonneg (Int.ofNat (r.stream r.pos)) (by decide : (10 : Int) ≠ 0)
  have hv2 := Int.emod_lt_of_pos (Int.ofNat (r.stream r.pos)) (by decide : (0 : Int) < 10)
  have hs : Game.zero.SetUp 1 1 0 = .done { Game.zero with dices := [.HungerDice 0 .Hunger] } :=
    rfl
  have hd : ((Game.mk [.HungerDice 0 .Hunger] 0 false false false false 0 0 "").Roll r).1.dices
      = [.HungerDice (Int.ofNat (r.stream r.pos) % 10 + 1) .Hunger] := by
    unfold Game.Roll
    rw [(compute_frame _).1]
    rfl
  refine ⟨((Game.mk [.HungerDice 0 .Hunger] 0 false false false false 0 0 "").Roll r).1,
    ((Game.mk [.HungerDice 0 .Hunger] 0 false false false false 0 0 "").Roll r).2,
    Int.ofNat (r.stream r.pos) % 10 + 1, ?_, hd, by omega, by omega, ?_, ?_, ?_⟩
  · unfold rcCheckGame
    rw [hs]
    rfl
  · rw [hd]
    rfl
  · rw [hd]
    rfl
  · unfold Game.Roll
    rw [(compute_frame _).2.1]

/-- C9 (the code departs from the claim): a negative first index passes the
upper-bound test of `CanRerollDices` and then indexes the pool out of bounds,
so the guard, and with it the guarded reroll by index, crashes in every game;
so does the index list [-1] that the command `r - -1` produces. -/
theorem CanRerollDices_negative_index_crash (game : Game) (k : Nat) (rest : List Int)
    (r : Rand) :
    game.CanRerollDices (Int.negSucc k :: rest) = .crash ∧
    guardedRerollDices game (Int.negSucc k :: rest) r = .crash ∧
    game.CanRerollDices [-1] = .crash ∧
    guardedRerollDices game [-1] r = .crash := by
  have hc : ∀ (k : Nat) (rest : List Int),
      game.CanRerollDices (Int.negSucc k :: rest) = .crash := by
    intro k rest
    unfold Game.CanRerollDices canRerollDicesLoop
    have h1 : ¬ (Int.negSucc k > (game.dices.length : Int) - 1) := by
      have := Int.negSucc_lt_zero k
      omega
    have h2 : indexDice game.dices (Int.negSucc k) = none := by
      unfold indexDice
      rw [if_pos (Int.negSucc_lt_zero k)]
    rw [if_neg h1]
    simp only [h2]
  have hg : ∀ (k : Nat) (rest : List Int),
      guardedRerollDices game (Int.negSucc k :: rest) r = .crash := by
    intro k rest
    unfold guardedRerollDices
    rw [hc k rest]
  exact ⟨hc k rest, hg k rest, hc 0 [], hg 0 []⟩

/-- C10, as stated, fails: with `0 <= hungerDicesCount <= totalDicesCount` and
`totalDicesCount = 2^44 + 1`, `make([]Dice, 0, totalDicesCount)` panics and
`SetUp` leaves no pool at all. -/
theorem SetUp_capacity_counterexample :
    (0 : Int) ≤ 0 ∧ (0 : Int) ≤ 2 ^ 44 + 1 ∧ Game.zero.SetUp (2 ^ 44 + 1) 0 0 = .crash :=
  ⟨by decide, by decide, rfl⟩

/-- C10, amended: for `0 <= hungerDicesCount <= totalDicesCount` with
`totalDicesCount` at most `maxSliceCap` (2^44, the largest capacity `make`
grants), whatever the game was before, `SetUp` leaves a pool of exactly
`totalDicesCount` dice, `totalDicesCount - hungerDicesCount` Normal dice
followed by `hungerDicesCount` Hunger dice, all of value 0, stores the
difficulty, clears `usedReroll`, `usedBloodSurge` and both hunger flags, zeroes
`successes` and `critSuccesses` and empties the result label; for a
`totalDicesCount` above `maxSliceCap` it panics in `make`. -/
theorem SetUp_spec (game : Game) (totalDicesCount hungerDicesCount difficulty : Int)
    (h0 : 0 ≤ hungerDicesCount) (h1 : hungerDicesCount ≤ totalDicesCount)
    (h2 : totalDicesCount ≤ maxSliceCap) :
    game.SetUp totalDicesCount hungerDicesCount difficulty = .done
      { dices :=
          List.replicate (totalDicesCount - hungerDicesCount).toNat (.NormalDice 0 .Normal)
            ++ List.replicate hungerDicesCount.toNat (.HungerDice 0 .Hunger),
        difficulty := difficulty, hasHungerCrit := false, hasHungerFail := false,
        usedReroll := false, usedBloodSurge := false, successes := 0, critSuccesses := 0,
        result := "" } ∧
    ((List.replicate (totalDicesCount - hungerDicesCount).toNat (Dice.NormalDice 0 .Normal)
        ++ List.replicate hungerDicesCount.toNat (Dice.HungerDice 0 .Hunger)).length : Int)
      = totalDicesCount ∧
    (∀ total hunger diff : Int, maxSliceCap < total → game.SetUp total hunger diff = .crash) := by
  refine ⟨SetUp_eq game totalDicesCount hungerDicesCount difficulty h0 h1 h2, ?_, ?_⟩
  · rw [List.length_append, List.length_replicate, List.length_replicate]
    omega
  · intro total hunger diff hbig
    unfold Game.SetUp
    rw [if_pos (Or.inr hbig)]

/-- Witness of C10 amended: `SetUp(3, 1, 2)` on a used game gives two Normal
dice and one Hunger die, all unrolled, and a clean state. -/
theorem SetUp_spec_witness :
    sampleRerolled.SetUp 3 1 2 = .done
      { dices := [.NormalDice 0 .Normal, .NormalDice 0 .Normal, .HungerDice 0 .Hunger],
        difficulty := 2, hasHungerCrit := false, hasHungerFail := false,
        usedReroll := false, usedBloodSurge := false, successes := 0, critSuccesses := 0,
        result := "" } :=
  (SetUp_spec sampleRerolled 3 1 2 (by decide) (by decide) (by decide)).1

/-- C11: when the pool holds at least `dicesNum` Normal dice (as when the
`CanReroll` guard passed) and `usedReroll` is clear, `Reroll` runs to its end
without indexing past the pool, draws `dicesNum` times, rolls exactly the
Normal dice that have fewer than `dicesNum` Normal dice before them (the first
`dicesNum` in index order), leaves every other die, Hunger or later Normal,
as it was, keeps pool length and kinds, sets `usedReroll` and returns nil;
when `usedReroll` is set it returns the already-rerolled error instead. -/
theorem Reroll_spec (game : Game) (dicesNum : Int) (r : Rand)
    (hn : game.CanReroll dicesNum = none ∨ dicesNum ≤ normalCount game.dices) :
    (game.usedReroll = false →
      ∃ game1, game.Reroll dicesNum r = .done (game1, r.after dicesNum.toNat, none) ∧
        game1.dices.length = game.dices.length ∧
        List.Forall₂ Dice.sameKind game1.dices game.dices ∧
        (∀ (i : Nat) (d : Dice), game.dices.get? i = some d →
          game1.dices.get? i = some
            (if d.GetType = .Normal ∧ (normalCount (game.dices.take i) : Int) < dicesNum
             then (d.Roll (r.after (normalCount (game.dices.take i)))).1 else d)) ∧
        (∀ (i : Nat) (d : Dice), game.dices.get? i = some d → d.GetType = .Hunger →
          game1.dices.get? i = some d) ∧
        (∀ (i : Nat) (d : Dice), game.dices.get? i = some d →
          dicesNum ≤ normalCount (game.dices.take i) → game1.dices.get? i = some d) ∧
        game1.usedReroll = true) ∧
    (game.usedReroll = true →
      game.Reroll dicesNum r = .done (game, r, some .alreadyRerolled)) := by
  have hcount : dicesNum ≤ normalCount game.dices := by
    rcases hn with h | h
    · exact ((CanReroll_none_iff game dicesNum).mp h).2.2
    · exact h
  constructor
  · intro hu
    obtain ⟨dices1, e1, e2, e3⟩ := rerollLoop_spec game.dices 0 dicesNum r (by omega)
    rw [sub_zero] at e1
    have hpt : ∀ (i : Nat) (d : Dice), game.dices.get? i = some d →
        dices1.get? i = some
          (if d.GetType = .Normal ∧ (normalCount (game.dices.take i) : Int) < dicesNum
           then (d.Roll (r.after (normalCount (game.dices.take i)))).1 else d) := by
      intro i d hd
      rw [e3 i d hd]
      congr 1
      refine if_congr ?_ rfl rfl
      rw [zero_add]
    refine ⟨(game.beforeCompute dices1).compute, ?_, ?_, ?_, ?_, ?_, ?_, ?_⟩
    · unfold Game.Reroll
      rw [if_neg (by simp [hu])]
      simp only [e1]
      rfl
    · rw [(compute_frame _).1]
      exact e2.length_eq
    · rw [(compute_frame _).1]
      exact e2
    · rw [(compute_frame _).1]
      exact hpt
    · rw [(compute_frame _).1]
      intro i d hd hty
      exact (hpt i d hd).trans
        (by rw [if_neg (fun hc => by rw [hty] at hc; exact absurd hc.1 (by decide))])
    · rw [(compute_frame _).1]
      intro i d hd hge
      exact (hpt i d hd).trans (by rw [if_neg (fun hc => by omega)])
    · rw [(compute_frame _).2.2.1]
      rfl
  · intro hu
    unfold Game.Reroll
    rw [if_pos hu]

/-- Witness of C11: `Reroll(1)` on `sampleGame` rolls its Normal die, at index
0, and leaves the Hunger die at index 1. -/
theorem Reroll_spec_witness :
    ∃ game1, sampleGame.Reroll 1 sampleRand = .done (game1, sampleRand.after 1, none) ∧
      game1.dices.get? 1 = some (.HungerDice 10 .Hunger) ∧ game1.usedReroll = true := by
  obtain ⟨game1, h1, -, -, -, h5, -, h7⟩ :=
    (Reroll_spec sampleGame 1 sampleRand (Or.inl rfl)).1 rfl
  exact ⟨game1, h1, h5 1 _ rfl rfl, h7⟩

/-- C12: on in-range indexes `RerollDices` returns an error iff `usedReroll` is
already set; otherwise it returns nil, draws once per listed index, gives each
listed die the roll of its last occurrence in the list, leaves every die that
is not listed as it was, keeps pool length, order and kinds, leaves
`usedBloodSurge` as it was and sets `usedReroll`. -/
theorem RerollDices_spec (game : Game) (diceIndexes : List Int) (r : Rand)
    (hin : ∀ i ∈ diceIndexes, 0 ≤ i ∧ i < game.dices.length) :
    ((game.RerollDices diceIndexes r).isError = true ↔ game.usedReroll = true) ∧
    (game.usedReroll = true →
      game.RerollDices diceIndexes r = .done (game, r, some .alreadyRerolled)) ∧
    (game.usedReroll = false →
      ∃ game1,
        game.RerollDices diceIndexes r = .done (game1, r.after diceIndexes.length, none) ∧
        game1.dices.length = game.dices.length ∧
        List.Forall₂ Dice.sameKind game1.dices game.dices ∧
        (∀ j : Nat, (j : Int) ∉ diceIndexes → game1.dices.get? j = game.dices.get? j) ∧
        (∀ (k : Nat) (i : Int), diceIndexes.get? k = some i →
          (∀ k1, k < k1 → diceIndexes.get? k1 ≠ some i) →
          game1.dices.get? i.toNat
            = (game.dices.get? i.toNat).map (fun d => (d.Roll (r.after k)).1)) ∧
        game1.usedBloodSurge = game.usedBloodSurge ∧
        game1.usedReroll = true) := by
  refine ⟨?_, ?_, ?_⟩
  · rw [RerollDices_isError]
  · intro hu
    unfold Game.RerollDices
    rw [if_pos hu]
  · intro hu
    obtain ⟨dices1, e1, e2, e3, e4⟩ := rerollDicesLoop_spec diceIndexes game.dices r hin
    refine ⟨(game.beforeCompute dices1).compute, ?_, ?_, ?_, ?_, ?_, ?_, ?_⟩
    · unfold Game.RerollDices
      rw [if_neg (by simp [hu])]
      simp only [e1]
      rfl
    · rw [(compute_frame _).1]
      exact e2.length_eq
    · rw [(compute_frame _).1]
      exact e2
    · rw [(compute_frame _).1]
      exact e3
    · rw [(compute_frame _).1]
      exact e4
    · rw [(compute_frame _).2.2.2]
      rfl
    · rw [(compute_frame _).2.2.1]
      rfl

/-- Witness of C12: `RerollDices([0, 0])` on `sampleGame` draws twice and the
die at index 0 keeps the second roll; the die at index 1 is untouched. -/
theorem RerollDices_spec_witness :
    ∃ game1, sampleGame.RerollDices [0, 0] sampleRand
        = .done (game1, sampleRand.after 2, none) ∧
      game1.dices.get? 0 = some (.NormalDice 10 .Normal) ∧
      game1.dices.get? 1 = some (.HungerDice 10 .Hunger) := by
  obtain ⟨game1, h1, -, -, h4, h5, -, -⟩ :=
    (RerollDices_spec sampleGame [0, 0] sampleRand (by decide)).2.2 rfl
  refine ⟨game1, h1, ?_, ?_⟩
  · exact (h5 1 0 rfl (fun k1 hk1 => by
      have h2 : k1 = (k1 - 2) + 2 := by omega
      rw [h2]
      simp)).trans rfl
  · exact (h4 1 (by decide)).trans rfl

/-- C13: `BloodSurge` (on every game, in particular one that passes
`CanBloodSurge`) yields a pool two dice longer whose dice at indexes 0 and 1
are Normal dice with values in [1,10] and whose die at index i+2 is the old
die at index i; it sets `usedBloodSurge` and leaves `usedReroll` and the
difficulty as they were. -/
theorem BloodSurge_spec (game : Game) (r : Rand) :
    (∃ v0 v1 : Int,
      (game.BloodSurge r).1.dices
        = .NormalDice v0 .Normal :: .NormalDice v1 .Normal :: game.dices ∧
      1 ≤ v0 ∧ v0 ≤ 10 ∧ 1 ≤ v1 ∧ v1 ≤ 10) ∧
    (game.BloodSurge r).1.dices.length = game.dices.length + 2 ∧
    (∀ i : Nat, (game.BloodSurge r).1.dices.get? (i + 2) = game.dices.get? i) ∧
    (game.BloodSurge r).1.usedBloodSurge = true ∧
    (game.BloodSurge r).1.usedReroll = game.usedReroll ∧
    (game.BloodSurge r).1.difficulty = game.difficulty ∧
    (game.BloodSurge r).2 = r.after 2 := by
  obtain ⟨h1, h2, h3, h4⟩ := BloodSurge_frame game r
  have hd : (game.BloodSurge r).1.dices
      = ((Dice.NormalDice 0 .Normal).Roll r).1
        :: ((Dice.NormalDice 0 .Normal).Roll ((Dice.NormalDice 0 .Normal).Roll r).2).1
        :: game.dices := by
    unfold Game.BloodSurge
    rw [(compute_frame _).1]
  have hv0 := Roll_value (Dice.NormalDice 0 .Normal) r
  have hv1 := Roll_value (Dice.NormalDice 0 .Normal) ((Dice.NormalDice 0 .Normal).Roll r).2
  refine ⟨⟨_, _, hd, hv0.1, hv0.2, hv1.1, hv1.2⟩, h4, ?_, h1, h2, h3, rfl⟩
  intro i
  rw [hd]
  rfl

/-- C14: on non-negative indexes `CanRerollDices` returns nil iff every index
is below the pool size and points to a Normal die; otherwise it returns the
error of the first offending index in list order, the out-of-range error when
that index is at or past the pool size and the hunger-dice error when it
points to a Hunger die. -/
theorem CanRerollDices_spec (game : Game) (diceIndexes : List Int)
    (hnn : ∀ i ∈ diceIndexes, 0 ≤ i) :
    (game.CanRerollDices diceIndexes = .done none ↔
      ∀ i ∈ diceIndexes, i < (game.dices.length : Int) ∧
        ∃ d, indexDice game.dices i = some d ∧ d.GetType = .Normal) ∧
    (game.CanRerollDices diceIndexes ≠ .done none →
      ∃ (pre : List Int) (j : Int) (post : List Int), diceIndexes = pre ++ j :: post ∧
        (∀ i ∈ pre, i < (game.dices.length : Int) ∧
          ∃ d, indexDice game.dices i = some d ∧ d.GetType = .Normal) ∧
        (((game.dices.length : Int) ≤ j ∧
            game.CanRerollDices diceIndexes = .done (some (.indexOutOfRange j))) ∨
         (j < (game.dices.length : Int) ∧
            (∃ d, indexDice game.dices j = some d ∧ d.GetType = .Hunger) ∧
            game.CanRerollDices diceIndexes = .done (some (.indexIsHungerDice j))))) := by
  have hfine : ∀ i : Int, (∃ d, indexDice game.dices i = some d ∧ d.GetType ≠ .Hunger) →
      i < (game.dices.length : Int) ∧
        ∃ d, indexDice game.dices i = some d ∧ d.GetType = .Normal := by
    rintro i ⟨d, hd, hty⟩
    have hlt := indexDice_lt hd
    exact ⟨by omega, d, hd, (GetType_ne_Hunger d).mp hty⟩
  have hbad : ∀ j : Int, j ∈ diceIndexes →
      ((game.dices.length : Int) ≤ j ∨
        ∃ d, indexDice game.dices j = some d ∧ d.GetType = .Hunger) →
      ¬ ∀ i ∈ diceIndexes, i < (game.dices.length : Int) ∧
        ∃ d, indexDice game.dices i = some d ∧ d.GetType = .Normal := by
    intro j hj hcase hall
    obtain ⟨hlt, d, hd, hty⟩ := hall j hj
    rcases hcase with hge | ⟨d1, hd1, hty1⟩
    · omega
    · rw [hd] at hd1
      cases hd1
      rw [hty] at hty1
      exact absurd hty1 (by decide)
  unfold Game.CanRerollDices
  rcases canRerollDicesLoop_cases game.dices diceIndexes hnn with
    ⟨h1, hall⟩ | ⟨pre, j, post, h1, h2, h3, h4⟩ | ⟨pre, j, post, h1, h2, h3, h4⟩
  · refine ⟨⟨fun _ i hi => hfine i (hall i hi), fun _ => h1⟩, fun hne => absurd h1 hne⟩
  · have hj : j ∈ diceIndexes := by rw [h1]; simp
    obtain ⟨d, hd, hty⟩ := h4
    have hlt := indexDice_lt hd
    refine ⟨⟨fun he => ?_, fun hall => absurd hall (hbad j hj (Or.inr ⟨d, hd, hty⟩))⟩,
      fun _ => ⟨pre, j, post, h1, fun i hi => hfine i (h2 i hi),
        Or.inr ⟨by omega, ⟨d, hd, hty⟩, h3⟩⟩⟩
    rw [h3] at he
    simp at he
  · have hj : j ∈ diceIndexes := by rw [h1]; simp
    refine ⟨⟨fun he => ?_, fun hall => absurd hall (hbad j hj (Or.inl h4))⟩,
      fun _ => ⟨pre, j, post, h1, fun i hi => hfine i (h2 i hi), Or.inl ⟨h4, h3⟩⟩⟩
    rw [h3] at he
    simp at he

/-- Witness of C14: on `sampleGame` the index list [0, 1, 7] is refused for its
second index, the Hunger die, and [0] is accepted. -/
theorem CanRerollDices_spec_witness :
    sampleGame.CanRerollDices [0, 1, 7] = .done (some (.indexIsHungerDice 1)) ∧
    (sampleGame.CanRerollDices [0] = .done none ↔
      ∀ i ∈ [(0 : Int)], i < (sampleGame.dices.length : Int) ∧
        ∃ d, indexDice sampleGame.dices i = some d ∧ d.GetType = .Normal) :=
  ⟨rfl, (CanRerollDices_spec sampleGame [0] (by decide)).1⟩

/-- C15: `CanReroll(n)` returns nil iff 1 <= n <= 3 and the pool holds at least
n Normal dice; it returns the range error whenever n <= 0 or n > 3, whatever
the pool, and the not-enough-dice error when 1 <= n <= 3 and the pool holds
fewer than n Normal dice. -/
theorem CanReroll_spec (game : Game) (dicesNum : Int) :
    (game.CanReroll dicesNum = none ↔
      1 ≤ dicesNum ∧ dicesNum ≤ 3 ∧ dicesNum ≤ normalCount game.dices) ∧
    ((dicesNum ≤ 0 ∨ dicesNum > 3) ↔
      game.CanReroll dicesNum = some (.incorrectDices dicesNum)) ∧
    ((1 ≤ dicesNum ∧ dicesNum ≤ 3 ∧ (normalCount game.dices : Int) < dicesNum) ↔
      game.CanReroll dicesNum
        = some (.notEnoughDices dicesNum (normalCount game.dices))) := by
  refine ⟨CanReroll_none_iff game dicesNum, ?_, ?_⟩
  · unfold Game.CanReroll
    simp only [countNormal_eq, zero_add]
    split_ifs with h1 h2
    · simp only [iff_true]
      exact h1
    · simp only [Option.some.injEq, reduceCtorEq, iff_false]
      exact h1
    · simp only [reduceCtorEq, iff_false]
      exact h1
  · unfold Game.CanReroll
    simp only [countNormal_eq, zero_add]
    split_ifs with h1 h2
    · simp only [Option.some.injEq, reduceCtorEq, iff_false]
      omega
    · simp only [iff_true]
      omega
    · simp only [reduceCtorEq, iff_false]
      omega

/-- C16: `CanBloodSurge` returns nil iff the pool is non-empty and neither
`usedBloodSurge` nor `usedReroll` is set; an empty pool is reported first, a
used blood surge second, a used reroll last. -/
theorem CanBloodSurge_spec (game : Game) :
    (game.CanBloodSurge = none ↔
      game.dices ≠ [] ∧ game.usedBloodSurge = false ∧ game.usedReroll = false) ∧
    (game.CanBloodSurge = some .needToRollFirst ↔ game.dices = []) ∧
    (game.CanBloodSurge = some .alreadyUsedBloodSurge ↔
      game.dices ≠ [] ∧ game.usedBloodSurge = true) ∧
    (game.CanBloodSurge = some .rerollWasUsed ↔
      game.dices ≠ [] ∧ game.usedBloodSurge = false ∧ game.usedReroll = true) := by
  unfold Game.CanBloodSurge
  have hlen : game.dices.length = 0 ↔ game.dices = [] := List.length_eq_zero
  cases hb : game.usedBloodSurge <;> cases hu : game.usedReroll <;>
    by_cases he : game.dices = [] <;> simp [he, hlen]

/-- C17: `Roll`, a total function of the game and the random source, gives
every die of the pool a value in [1,10] whatever the source yields (die i
takes draw number i), keeps the pool length, order and die kinds and the
difficulty, and clears both `usedReroll` and `usedBloodSurge`. -/
theorem Roll_spec (game : Game) (r : Rand) :
    (∀ d ∈ (game.Roll r).1.dices, 1 ≤ d.GetValue ∧ d.GetValue ≤ 10) ∧
    (game.Roll r).1.dices.length = game.dices.length ∧
    List.Forall₂ Dice.sameKind (game.Roll r).1.dices game.dices ∧
    (game.Roll r).1.dices.map Dice.GetType = game.dices.map Dice.GetType ∧
    (∀ i : Nat, (game.Roll r).1.dices.get? i
      = (game.dices.get? i).map (fun d => (d.Roll (r.after i)).1)) ∧
    (game.Roll r).1.difficulty = game.difficulty ∧
    (game.Roll r).1.usedReroll = false ∧
    (game.Roll r).1.usedBloodSurge = false ∧
    (game.Roll r).2 = r.after game.dices.length := by
  obtain ⟨h1, h2, h3, h4⟩ := rollAll_spec game.dices r
  have hd : (game.Roll r).1.dices = (rollAll game.dices r).1 := by
    unfold Game.Roll
    rw [(compute_frame _).1]
  refine ⟨?_, ?_, ?_, ?_, ?_, ?_, ?_, ?_, h1⟩
  · rw [hd]
    exact h3
  · rw [hd]
    exact h2.length_eq
  · rw [hd]
    exact h2
  · rw [hd]
    exact forall2_sameKind_map_GetType h2
  · rw [hd]
    exact h4
  · unfold Game.Roll
    rw [(compute_frame _).2.1]
  · unfold Game.Roll
    rw [(compute_frame _).2.2.1]
  · unfold Game.Roll
    rw [(compute_frame _).2.2.2]

/-- C18: whenever `RerollDices` or `Reroll` returns an error, and whenever a
guard (`CanRerollDices`, `CanReroll`, `CanBloodSurge`) returns an error and so
ends the command it guards, the game after the call is the game before it,
field for field, and no random draw has been made. -/
theorem error_leaves_state (game : Game) (r : Rand) :
    (∀ diceIndexes game1 r1 err,
      game.RerollDices diceIndexes r = .done (game1, r1, some err) → game1 = game ∧ r1 = r) ∧
    (∀ dicesNum game1 r1 err,
      game.Reroll dicesNum r = .done (game1, r1, some err) → game1 = game ∧ r1 = r) ∧
    (∀ diceIndexes game1 r1 err,
      guardedRerollDices game diceIndexes r = .done (game1, r1, some err) →
        game1 = game ∧ r1 = r) ∧
    (∀ dicesNum game1 r1 err,
      guardedReroll game dicesNum r = .done (game1, r1, some err) → game1 = game ∧ r1 = r) ∧
    (∀ game1 r1 err,
      guardedBloodSurge game r = .done (game1, r1, some err) → game1 = game ∧ r1 = r) := by
  have hA : ∀ diceIndexes game1 r1 err,
      game.RerollDices diceIndexes r = .done (game1, r1, some err) → game1 = game ∧ r1 = r := by
    intro diceIndexes game1 r1 err h
    rcases RerollDices_done h with ⟨-, h2, h3, -⟩ | ⟨-, h2, -⟩
    · exact ⟨h2, h3⟩
    · exact absurd h2 (by simp)
  have hB : ∀ dicesNum game1 r1 err,
      game.Reroll dicesNum r = .done (game1, r1, some err) → game1 = game ∧ r1 = r := by
    intro dicesNum game1 r1 err h
    rcases Reroll_done h with ⟨-, h2, h3, -⟩ | ⟨-, h2, -⟩
    · exact ⟨h2, h3⟩
    · exact absurd h2 (by simp)
  refine ⟨hA, hB, ?_, ?_, ?_⟩
  · intro diceIndexes game1 r1 err h
    unfold guardedRerollDices at h
    cases hg : game.CanRerollDices diceIndexes with
    | crash => simp [hg] at h
    | done e =>
      cases e with
      | none =>
        simp only [hg] at h
        exact hA _ _ _ _ h
      | some e1 =>
        simp only [hg, Res.done.injEq, Prod.mk.injEq] at h
        exact ⟨h.1.symm, h.2.1.symm⟩
  · intro dicesNum game1 r1 err h
    unfold guardedReroll at h
    cases hg : game.CanReroll dicesNum with
    | none =>
      simp only [hg] at h
      exact hB _ _ _ _ h
    | some e1 =>
      simp only [hg, Res.done.injEq, Prod.mk.injEq] at h
      exact ⟨h.1.symm, h.2.1.symm⟩
  · intro game1 r1 err h
    unfold guardedBloodSurge at h
    cases hg : game.CanBloodSurge with
    | none =>
      simp only [hg] at h
      cases hrc : rcCheckGame r with
      | crash => simp [hrc] at h
      | done p =>
        obtain ⟨g2, r2⟩ := p
        simp [hrc] at h
    | some e1 =>
      simp only [hg, Res.done.injEq, Prod.mk.injEq] at h
      exact ⟨h.1.symm, h.2.1.symm⟩

/-- Witness of C18: a second reroll of `sampleRerolled` and a refused index
list on `sampleGame` return an error and the very game they were given. -/
theorem error_leaves_state_witness :
    sampleRerolled.Reroll 1 sampleRand
      = .done (sampleRerolled, sampleRand, some .alreadyRerolled) ∧
    guardedRerollDices sampleGame [1] sampleRand
      = .done (sampleGame, sampleRand, some (.indexIsHungerDice 1)) ∧
    sampleRerolled = sampleRerolled ∧ sampleGame = sampleGame :=
  ⟨rfl, rfl,
   ((error_leaves_state sampleRerolled sampleRand).2.1 1 _ _ _ rfl).1,
   ((error_leaves_state sampleGame sampleRand).2.2.1 [1] _ _ _ rfl).1⟩

/-- C19: the state produced by `Roll`, by `BloodSurge`, by a `RerollDices` or by
a `Reroll` that returned nil, from any prior state whatever its derived
fields, is consistent: its `successes`, `critSuccesses`, `hasHungerCrit`,
`hasHungerFail` and `result` are those that `compute` gives for the current
pool from zeroed counters and cleared flags; and in a consistent state the
counters and flags are the counts over the current dice and the result label
is `calcResult` of them and the difficulty. -/
theorem derived_fields_consistent (game : Game) (r : Rand) :
    (game.Roll r).1.Consistent ∧
    (game.BloodSurge r).1.Consistent ∧
    (∀ diceIndexes game1 r1,
      game.RerollDices diceIndexes r = .done (game1, r1, none) → game1.Consistent) ∧
    (∀ dicesNum game1 r1,
      game.Reroll dicesNum r = .done (game1, r1, none) → game1.Consistent) ∧
    (∀ g : Game, g.Consistent →
      g.critSuccesses = (g.dices.countP (fun d => d.GetResult = .CriticalSuccess) : Nat) ∧
      g.successes = (g.dices.countP (fun d => d.GetResult = .Success) : Nat)
        + critBonus (g.dices.countP (fun d => d.GetResult = .CriticalSuccess) : Nat) ∧
      (g.hasHungerCrit = true ↔
        ∃ d ∈ g.dices, d.GetType = .Hunger ∧ d.GetResult = .CriticalSuccess) ∧
      (g.hasHungerFail = true ↔ ∃ d ∈ g.dices, d.GetResult = .BestialFail) ∧
      g.result = g.calcResult) := by
  refine ⟨compute_Consistent _ rfl, compute_Consistent _ rfl, ?_, ?_, ?_⟩
  · intro diceIndexes game1 r1 h
    unfold Game.RerollDices at h
    by_cases hu : game.usedReroll = true
    · rw [if_pos hu] at h
      simp at h
    · rw [if_neg hu] at h
      cases hl : rerollDicesLoop game.dices diceIndexes r with
      | crash => simp [hl] at h
      | done p =>
        obtain ⟨ds, r2⟩ := p
        simp only [hl, Res.done.injEq, Prod.mk.injEq] at h
        rw [← h.1]
        exact compute_Consistent (game.beforeCompute ds) rfl
  · intro dicesNum game1 r1 h
    unfold Game.Reroll at h
    by_cases hu : game.usedReroll = true
    · rw [if_pos hu] at h
      simp at h
    · rw [if_neg hu] at h
      cases hl : rerollLoop game.dices 0 dicesNum r with
      | crash => simp [hl] at h
      | done p =>
        obtain ⟨ds, r2⟩ := p
        simp only [hl, Res.done.injEq, Prod.mk.injEq] at h
        rw [← h.1]
        exact compute_Consistent (game.beforeCompute ds) rfl
  · intro g hg
    unfold Game.Consistent at hg
    obtain ⟨h1, h2, h3, h4, -⟩ := foldl_computeStep g.zeroed.dices g.zeroed
    have e1 : g.zeroed.compute.critSuccesses
        = (g.dices.countP (fun d => d.GetResult = .CriticalSuccess) : Nat) := by
      show (g.zeroed.dices.foldl computeStep g.zeroed).critSuccesses = _
      rw [h2]
      show (0 : Int) + _ = _
      rw [zero_add]
      rfl
    have e2 : g.zeroed.compute.successes
        = (g.dices.countP (fun d => d.GetResult = .Success) : Nat)
          + critBonus (g.dices.countP (fun d => d.GetResult = .CriticalSuccess) : Nat) := by
      show (g.zeroed.dices.foldl computeStep g.zeroed).successes
        + critBonus (g.zeroed.dices.foldl computeStep g.zeroed).critSuccesses = _
      rw [h1, h2]
      show (0 : Int) + _ + critBonus ((0 : Int) + _) = _
      rw [zero_add, zero_add]
      rfl
    have e3 : g.zeroed.compute.hasHungerCrit
        = g.dices.any (fun d => d.GetResult = .CriticalSuccess ∧ d.GetType = .Hunger) := by
      show (g.zeroed.dices.foldl computeStep g.zeroed).hasHungerCrit = _
      rw [h3]
      rfl
    have e4 : g.zeroed.compute.hasHungerFail
        = g.dices.any (fun d => d.GetResult = .BestialFail) := by
      show (g.zeroed.dices.foldl computeStep g.zeroed).hasHungerFail = _
      rw [h4]
      rfl
    have e5 : g.zeroed.compute.result = g.zeroed.compute.calcResult := rfl
    rw [hg] at e1 e2 e3 e4 e5
    refine ⟨e1, e2, ?_, ?_, e5⟩
    · rw [e3]
      simp only [List.any_eq_true, decide_eq_true_eq]
      constructor
      · rintro ⟨d, hd, h5, h6⟩
        exact ⟨d, hd, h6, h5⟩
      · rintro ⟨d, hd, h5, h6⟩
        exact ⟨d, hd, h6, h5⟩
    · rw [e4]
      simp only [List.any_eq_true, decide_eq_true_eq]

/-- Witness of C19: `sampleGame`, produced by a roll, is consistent, and
`Reroll(1)` on it with stale derived fields gives a consistent state. -/
theorem derived_fields_consistent_witness :
    sampleGame.Consistent ∧
    ∃ game1 r1,
      ({ sampleGame with successes := 40, result := "stale" } : Game).Reroll 1 sampleRand
        = .done (game1, r1, none) ∧ game1.Consistent :=
  ⟨rfl, _, _, rfl,
   (derived_fields_consistent { sampleGame with successes := 40, result := "stale" }
      sampleRand).2.2.2.1 1 _ _ rfl⟩

/-- C20, as stated, fails: `sampleRerolled` is reached from `SetUp(2, 1, 0)` by a
`Roll` and a `RerollDices` that returned nil; there the guard `CanReroll(1)`
passes, yet the guarded `Reroll(1)` returns the already-rerolled error and
rolls no die, not the die at index 0. -/
theorem guardedReroll_after_reroll_counterexample :
    Game.zero.SetUp 2 1 0 = .done sampleSetUp ∧
    PlaySteps sampleSetUp sampleRerolled ∧
    sampleRerolled.CanReroll 1 = none ∧
    guardedReroll sampleRerolled 1 sampleRand
      = .done (sampleRerolled, sampleRand, some .alreadyRerolled) :=
  ⟨rfl,
   Relation.ReflTransGen.tail
     (Relation.ReflTransGen.single (PlayStep.roll sampleSetUp sampleRand))
     (PlayStep.rerollDices sampleGame [0] sampleRand sampleRerolled
       ⟨sampleRand.stream, 1⟩ rfl),
   rfl, rfl⟩

/-- C20, amended: in every state reached from a `SetUp(totalDicesCount,
hungerDicesCount, difficulty)` that returned, with
`0 <= hungerDicesCount <= totalDicesCount`, by any sequence of `Roll`,
`RerollDices` and `Reroll` that returned nil, and `BloodSurge`, every Normal
die sits at a lower index than every Hunger die and the pool holds exactly
`hungerDicesCount` Hunger dice; so a `Reroll(n)` behind its passed guard runs
to its end and rolls exactly the dice at indexes 0..n-1, die i taking draw
number i, when `usedReroll` is clear, and returns the already-rerolled error
and leaves the game as it is when `usedReroll` is set. -/
theorem normal_before_hunger (game0 game1 game : Game)
    (totalDicesCount hungerDicesCount difficulty : Int)
    (h0 : 0 ≤ hungerDicesCount) (h1 : hungerDicesCount ≤ totalDicesCount)
    (hset : game0.SetUp totalDicesCount hungerDicesCount difficulty = .done game1)
    (hreach : PlaySteps game1 game) :
    (∀ (i j : Nat) (di dj : Dice), game.dices.get? i = some di →
      game.dices.get? j = some dj → di.GetType = .Normal → dj.GetType = .Hunger → i < j) ∧
    game.dices.countP (fun d => d.GetType = .Hunger) = hungerDicesCount.toNat ∧
    (∀ (dicesNum : Int) (r : Rand),
      game.CanReroll dicesNum = none → game.usedReroll = false →
      ∃ game2,
        guardedReroll game dicesNum r = .done (game2, r.after dicesNum.toNat, none) ∧
        game2.dices.length = game.dices.length ∧
        ∀ (i : Nat) (d : Dice), game.dices.get? i = some d →
          game2.dices.get? i
            = some (if (i : Int) < dicesNum then (d.Roll (r.after i)).1 else d)) ∧
    (∀ (dicesNum : Int) (r : Rand),
      game.CanReroll dicesNum = none → game.usedReroll = true →
      guardedReroll game dicesNum r = .done (game, r, some .alreadyRerolled)) := by
  have hd := SetUp_done game0 totalDicesCount hungerDicesCount difficulty h0 h1 game1 hset
  have hmap1 : game1.dices.map Dice.GetType
      = List.replicate (totalDicesCount - hungerDicesCount).toNat .Normal
        ++ List.replicate hungerDicesCount.toNat .Hunger := by
    rw [hd, List.map_append, List.map_replicate, List.map_replicate]
    rfl
  obtain ⟨k, hk⟩ := PlaySteps_types hreach _ _ hmap1
  obtain ⟨f1, f2, f3, f4⟩ := ordered_facts game.dices k hungerDicesCount.toNat hk
  refine ⟨?_, f4, ?_, ?_⟩
  · intro i j di dj hi hj hti htj
    have hik : i < k := (f1 i di hi).mp hti
    have hjk : ¬ j < k := by
      intro hlt
      have := (f1 j dj hj).mpr hlt
      rw [htj] at this
      exact absurd this (by decide)
    omega
  · intro dicesNum r hg hu
    obtain ⟨g1, g2, g3⟩ := (CanReroll_none_iff game dicesNum).mp hg
    obtain ⟨dices1, e1, e2, e3⟩ := rerollLoop_spec game.dices 0 dicesNum r (by omega)
    rw [sub_zero] at e1
    refine ⟨(game.beforeCompute dices1).compute, ?_, ?_, ?_⟩
    · unfold guardedReroll
      simp only [hg]
      unfold Game.Reroll
      rw [if_neg (by simp [hu])]
      simp only [e1]
      rfl
    · rw [(compute_frame _).1]
      exact e2.length_eq
    · rw [(compute_frame _).1]
      intro i d hi
      refine (e3 i d hi).trans ?_
      have hmin := f2 i
      by_cases hlt : (i : Int) < dicesNum
      · have hik : i < k := by omega
        have hcount : normalCount (List.take i game.dices) = i := by
          rw [hmin]
          exact Nat.min_eq_left (le_of_lt hik)
        rw [if_pos hlt, if_pos ⟨(f1 i d hi).mpr hik, by rw [hcount]; omega⟩, hcount]
      · have hcount : dicesNum ≤ (normalCount (List.take i game.dices) : Int) := by
          rw [hmin]
          have : (dicesNum.toNat) ≤ min i k := by
            apply Nat.le_min.mpr
            constructor <;> omega
          omega
        rw [if_neg hlt, if_neg (fun hc => by omega)]
  · intro dicesNum r hg hu
    unfold guardedReroll
    simp only [hg]
    unfold Game.Reroll
    rw [if_pos hu]

/-- Witness of C20 amended: `sampleGame`, reached from `SetUp(2, 1, 0)` by a
roll, holds one Hunger die, and a guarded `Reroll(1)` on it rolls the die at
index 0. -/
theorem normal_before_hunger_witness :
    sampleGame.dices.countP (fun d => d.GetType = .Hunger) = (1 : Int).toNat ∧
    ∃ game2, guardedReroll sampleGame 1 sampleRand
        = .done (game2, sampleRand.after (1 : Int).toNat, none) ∧
      game2.dices.get? 0 = some (.NormalDice 3 .Normal) ∧
      game2.dices.get? 1 = some (.HungerDice 10 .Hunger) := by
  have h := normal_before_hunger Game.zero sampleSetUp sampleGame 2 1 0
    (by decide) (by decide) rfl
    (Relation.ReflTransGen.single (PlayStep.roll sampleSetUp sampleRand))
  refine ⟨h.2.1, ?_⟩
  obtain ⟨game2, e1, -, e3⟩ := h.2.2.1 1 sampleRand rfl rfl
  exact ⟨game2, e1, (e3 0 _ rfl).trans rfl, (e3 1 _ rfl).trans rfl⟩

end Vtmdice
